import Mathlib

/-!
Verification of `ReportEngine/renderers/pdf_renderer.py`.

The Document IR, the recursive chart-widget extraction
(`_extract_and_convert_widgets`), the SVG injection (`_inject_svg_into_html`),
the font selection (`_get_font_path`) and the two render entry points
(`render_to_pdf`, `render_to_bytes`) are shallowly embedded as pure Lean
functions.  External collaborators (HTML renderer, layout optimizer, chart
converter, WeasyPrint rasterizer) live outside the given sources and are
modelled from the spec as abstract function fields of a render environment.
Side effects (logging, log-file writes, rasterizer invocation) are recorded
as an explicit event trace in program order.
-/

namespace BettaFish

/-- Document IR block.  Mirrors the dictionaries traversed by
`_extract_and_convert_widgets`: a block has a `type` tag, an optional
`widgetId`, a `widgetType` (`block.get('widgetType', '')`, so absence is the
empty string), an optional nested `blocks` list, a list of list `items`
(each item is itself a block sequence; non-list items are skipped by the
code and hence not represented), and table `rows`, each row a list of
cells, each cell a block sequence (`row.get('cells', [])`,
`cell.get('blocks', [])`). -/
inductive Block : Type where
  | mk
      (btype : String)
      (widgetId : Option String)
      (widgetType : String)
      (sub : Option (List Block))
      (items : List (List Block))
      (rows : List (List (List Block)))

/-- The `type` field of a block. -/
def Block.btype : Block → String
  | .mk t _ _ _ _ _ => t

/-- The `widgetId` field of a block (`block.get('widgetId')`). -/
def Block.widgetId : Block → Option String
  | .mk _ w _ _ _ _ => w

/-- The `widgetType` field of a block (`block.get('widgetType', '')`). -/
def Block.widgetType : Block → String
  | .mk _ _ wt _ _ _ => wt

/-- The nested `blocks` field of a block (`block.get('blocks')`). -/
def Block.sub : Block → Option (List Block)
  | .mk _ _ _ s _ _ => s

/-- The `items` field of a list block (`block.get('items', [])`). -/
def Block.items : Block → List (List Block)
  | .mk _ _ _ _ i _ => i

/-- The `rows` field of a table block, flattened to cell block sequences. -/
def Block.rows : Block → List (List (List Block))
  | .mk _ _ _ _ _ r => r

/-- A chapter of the Document IR (`chapter.get('blocks', [])`). -/
structure Chapter : Type where
  blocks : List Block

/-- The Document IR (`document_ir.get('chapters', [])`). -/
structure Document : Type where
  chapters : List Chapter

/-- State threaded through `_extract_and_convert_widgets`: the `svg_map`
dictionary (association list in insertion order with unique keys) together
with the list of widget blocks handed to the chart converter, in call
order.  The latter records the `convert_widget_to_svg` call sites. -/
structure ExtractState : Type where
  svgMap : List (String × String)
  visited : List Block

/-- Python dict assignment `svg_map[widget_id] = svg_content`: replace the
value in place if the key is present, otherwise append (insertion order). -/
def dictInsert (m : List (String × String)) (k v : String) : List (String × String) :=
  if m.any (fun p => p.1 == k) then
    m.map (fun p => if p.1 == k then (k, v) else p)
  else
    m ++ [(k, v)]

/-- Character-list prefix test. -/
def listStarts : List Char → List Char → Bool
  | [], _ => true
  | _ :: _, [] => false
  | p :: ps, c :: cs => p == c && listStarts ps cs

/-- Python `str.startswith`: the second string is a prefix of the
first. -/
def strStartsWith (s pre : String) : Bool := listStarts pre.data s.data

/-- The widget branch of `_extract_and_convert_widgets`: for a `widget`
block with a truthy `widgetId` and a `widgetType` starting with
`chart.js`, call the converter (`conv b = none` models an exception) and
store a non-empty result under the widget id.  The block is recorded as
visited exactly when the converter is invoked. -/
def processWidget (conv : Block → Option String) (b : Block) (st : ExtractState) :
    ExtractState :=
  if b.btype == "widget" then
    match b.widgetId with
    | some wid =>
      if wid != "" && strStartsWith b.widgetType "chart.js" then
        let st' : ExtractState := ⟨st.svgMap, st.visited ++ [b]⟩
        match conv b with
        | some svg =>
          if svg != "" then ⟨dictInsert st'.svgMap wid svg, st'.visited⟩ else st'
        | none => st'
      else st
    | none => st
  else st

mutual

/-- `_extract_and_convert_widgets`: left-to-right traversal of a block
list, threading the mutable state. -/
def extractBlocks (conv : Block → Option String) :
    List Block → ExtractState → ExtractState
  | [], st => st
  | b :: rest, st => extractBlocks conv rest (extractBlock conv b st)

/-- Processing of one block inside `_extract_and_convert_widgets`: widget
branch, then recursion into the nested `blocks`, then list `items`, then
table `rows`. -/
def extractBlock (conv : Block → Option String) :
    Block → ExtractState → ExtractState
  | Block.mk t wid wt sub items rows, st =>
    let st1 := processWidget conv (Block.mk t wid wt sub items rows) st
    let st2 := match sub with
      | some nested => extractBlocks conv nested st1
      | none => st1
    let st3 := if t == "list" then extractItems conv items st2 else st2
    if t == "table" then extractRows conv rows st3 else st3

/-- The `for item in items` loop of `_extract_and_convert_widgets`. -/
def extractItems (conv : Block → Option String) :
    List (List Block) → ExtractState → ExtractState
  | [], st => st
  | item :: rest, st => extractItems conv rest (extractBlocks conv item st)

/-- The `for row in rows` loop of `_extract_and_convert_widgets`. -/
def extractRows (conv : Block → Option String) :
    List (List (List Block)) → ExtractState → ExtractState
  | [], st => st
  | row :: rest, st => extractRows conv rest (extractCells conv row st)

/-- The `for cell in cells` loop of `_extract_and_convert_widgets`. -/
def extractCells (conv : Block → Option String) :
    List (List Block) → ExtractState → ExtractState
  | [], st => st
  | cell :: rest, st => extractCells conv rest (extractBlocks conv cell st)

end

/-- `_convert_charts_to_svg`: with no converter available the map stays
empty; otherwise every chapter's blocks are traversed in order. -/
def convertChartsToSvg (converter : Option (Block → Option String)) (doc : Document) :
    ExtractState :=
  match converter with
  | none => ⟨[], []⟩
  | some conv => doc.chapters.foldl (fun st ch => extractBlocks conv ch.blocks st) ⟨[], []⟩

/-- The guard of the widget branch: `widget` type, truthy `widgetId`,
`widgetType` starting with `chart.js`. -/
def isChartWidgetB (b : Block) : Bool :=
  b.btype == "widget" &&
    (match b.widgetId with
     | some wid => wid != "" && strStartsWith b.widgetType "chart.js"
     | none => false)

/-- Outcome of one converter call as the code interprets it: an exception
(`none`) or an empty result both yield nothing; a non-empty string is
kept. -/
def convResult (conv : Block → Option String) (b : Block) : Option String :=
  match conv b with
  | some svg => if svg != "" then some svg else none
  | none => none

/-- The map entry a chart-widget block contributes when its conversion
succeeds with a non-empty result. -/
def widgetEntry (conv : Block → Option String) (b : Block) : Option (String × String) :=
  match b.widgetId, convResult conv b with
  | some wid, some svg => some (wid, svg)
  | some _, none => none
  | none, _ => none

/-- Successful conversions of a list of chart-widget blocks, in order. -/
def successes (conv : Block → Option String) (ws : List Block) : List (String × String) :=
  ws.filterMap (widgetEntry conv)

/-- Insert a batch of entries into a Python-style dict, left to right. -/
def foldIns (m : List (String × String)) (l : List (String × String)) :
    List (String × String) :=
  l.foldl (fun acc p => dictInsert acc p.1 p.2) m

mutual

/-- The chart-widget blocks a block-list traversal passes to the
converter, in visit order. -/
def cwBlocks : List Block → List Block
  | [] => []
  | b :: rest => cwBlock b ++ cwBlocks rest

/-- The chart-widget blocks found in (the tree rooted at) one block. -/
def cwBlock : Block → List Block
  | Block.mk t wid wt sub items rows =>
    (if isChartWidgetB (Block.mk t wid wt sub items rows) then
        [Block.mk t wid wt sub items rows] else []) ++
    (match sub with
     | some nested => cwBlocks nested
     | none => []) ++
    (if t == "list" then cwItems items else []) ++
    (if t == "table" then cwRows rows else [])

/-- Chart-widget blocks inside list items. -/
def cwItems : List (List Block) → List Block
  | [] => []
  | item :: rest => cwBlocks item ++ cwItems rest

/-- Chart-widget blocks inside table rows. -/
def cwRows : List (List (List Block)) → List Block
  | [] => []
  | row :: rest => cwCells row ++ cwRows rest

/-- Chart-widget blocks inside the cells of one table row. -/
def cwCells : List (List Block) → List Block
  | [] => []
  | cell :: rest => cwBlocks cell ++ cwCells rest

end

/-- Chart-widget blocks of a whole document, in visit order. -/
def cwDoc (doc : Document) : List Block :=
  doc.chapters.foldl (fun acc ch => acc ++ cwBlocks ch.blocks) []

theorem foldIns_append (m : List (String × String)) (l₁ l₂ : List (String × String)) :
    foldIns m (l₁ ++ l₂) = foldIns (foldIns m l₁) l₂ :=
  List.foldl_append ..

theorem successes_append (conv : Block → Option String) (ws₁ ws₂ : List Block) :
    successes conv (ws₁ ++ ws₂) = successes conv ws₁ ++ successes conv ws₂ :=
  List.filterMap_append ..

/-- `processWidget` in terms of the guard and the conversion outcome. -/
theorem processWidget_eq (conv : Block → Option String) (b : Block) (st : ExtractState) :
    processWidget conv b st =
      if isChartWidgetB b then
        ⟨foldIns st.svgMap (successes conv [b]), st.visited ++ [b]⟩
      else st := by
  cases b with
  | mk t wid wt sub items rows =>
    simp only [processWidget, isChartWidgetB, successes, widgetEntry, convResult,
      foldIns, Block.btype, Block.widgetId, Block.widgetType, List.filterMap]
    cases hw : wid with
    | none => simp
    | some w =>
      by_cases ht : (t == "widget") = true
      · simp only [ht, if_true]
        by_cases hg : (w != "" && strStartsWith wt "chart.js") = true
        · simp only [hg, if_true]
          cases hc : conv (Block.mk t (some w) wt sub items rows) with
          | none => simp [hc]
          | some svg =>
            by_cases hs : (svg != "") = true
            · simp [hc, hs]
            · simp [hc, hs]
        · simp [hg]
      · simp [ht]

/-- A state transformer behaves like the traversal of a fixed chart-widget
list: it batch-inserts the successful conversions and appends the widgets
to the visit log. -/
def addsCW (conv : Block → Option String) (l : List Block)
    (f : ExtractState → ExtractState) : Prop :=
  ∀ st, f st = ⟨foldIns st.svgMap (successes conv l), st.visited ++ l⟩

theorem addsCW_id (conv : Block → Option String) :
    addsCW conv [] (fun st => st) := by
  intro st
  simp [successes, foldIns]

theorem addsCW_comp {conv : Block → Option String} {l₁ l₂ : List Block}
    {f g : ExtractState → ExtractState}
    (hf : addsCW conv l₁ f) (hg : addsCW conv l₂ g) :
    addsCW conv (l₁ ++ l₂) (fun st => g (f st)) := by
  intro st
  show g (f st) = _
  rw [hf, hg]
  simp [foldIns_append, successes_append, List.append_assoc]

theorem processWidget_adds (conv : Block → Option String) (b : Block) :
    addsCW conv (if isChartWidgetB b then [b] else []) (processWidget conv b) := by
  intro st
  rw [processWidget_eq]
  by_cases hg : isChartWidgetB b = true
  · simp [hg]
  · simp [hg, successes, foldIns]

mutual

/-- Master characterization of the traversal on block lists: the visited
widgets are exactly the chart widgets in visit order, and the svg map is
the batch insertion of their successful conversions. -/
theorem extractBlocks_adds (conv : Block → Option String) (bs : List Block) :
    addsCW conv (cwBlocks bs) (extractBlocks conv bs) := by
  match bs with
  | [] =>
    intro st
    simp [extractBlocks, cwBlocks, successes, foldIns]
  | b :: rest =>
    intro st
    rw [extractBlocks, cwBlocks]
    exact addsCW_comp (extractBlock_adds conv b) (extractBlocks_adds conv rest) st

/-- Master characterization of the traversal on one block. -/
theorem extractBlock_adds (conv : Block → Option String) (b : Block) :
    addsCW conv (cwBlock b) (extractBlock conv b) := by
  match b with
  | Block.mk t wid wt sub items rows =>
    have h2 : addsCW conv
        (match sub with | some nested => cwBlocks nested | none => [])
        (fun st => match sub with
          | some nested => extractBlocks conv nested st
          | none => st) := by
      cases sub with
      | some nested => exact extractBlocks_adds conv nested
      | none => exact addsCW_id conv
    have h3 : addsCW conv
        (if t == "list" then cwItems items else [])
        (fun st => if t == "list" then extractItems conv items st else st) := by
      by_cases hl : (t == "list") = true
      · simpa [hl] using extractItems_adds conv items
      · simpa [hl] using addsCW_id conv
    have h4 : addsCW conv
        (if t == "table" then cwRows rows else [])
        (fun st => if t == "table" then extractRows conv rows st else st) := by
      by_cases ht : (t == "table") = true
      · simpa [ht] using extractRows_adds conv rows
      · simpa [ht] using addsCW_id conv
    intro st
    have h := addsCW_comp (addsCW_comp
      (addsCW_comp (processWidget_adds conv (Block.mk t wid wt sub items rows)) h2) h3) h4 st
    rw [extractBlock.eq_def, cwBlock.eq_def]
    simpa using h

/-- Master characterization of the list-items loop. -/
theorem extractItems_adds (conv : Block → Option String) (items : List (List Block)) :
    addsCW conv (cwItems items) (extractItems conv items) := by
  match items with
  | [] =>
    intro st
    simp [extractItems, cwItems, successes, foldIns]
  | item :: rest =>
    intro st
    rw [extractItems, cwItems]
    exact addsCW_comp (extractBlocks_adds conv item) (extractItems_adds conv rest) st

/-- Master characterization of the table-rows loop. -/
theorem extractRows_adds (conv : Block → Option String) (rows : List (List (List Block))) :
    addsCW conv (cwRows rows) (extractRows conv rows) := by
  match rows with
  | [] =>
    intro st
    simp [extractRows, cwRows, successes, foldIns]
  | row :: rest =>
    intro st
    rw [extractRows, cwRows]
    exact addsCW_comp (extractCells_adds conv row) (extractRows_adds conv rest) st

/-- Master characterization of the table-cells loop. -/
theorem extractCells_adds (conv : Block → Option String) (cells : List (List Block)) :
    addsCW conv (cwCells cells) (extractCells conv cells) := by
  match cells with
  | [] =>
    intro st
    simp [extractCells, cwCells, successes, foldIns]
  | cell :: rest =>
    intro st
    rw [extractCells, cwCells]
    exact addsCW_comp (extractBlocks_adds conv cell) (extractCells_adds conv rest) st

end

/-- Chart widgets of a whole document, chapter by chapter. -/
theorem convertChartsLoop_adds (conv : Block → Option String) (chs : List Chapter) :
    addsCW conv (chs.flatMap fun ch => cwBlocks ch.blocks)
      (fun st => chs.foldl (fun st ch => extractBlocks conv ch.blocks st) st) := by
  induction chs with
  | nil => simpa using addsCW_id conv
  | cons ch rest ih =>
    have h := addsCW_comp (extractBlocks_adds conv ch.blocks) ih
    intro st
    simpa [List.flatMap_cons] using h st

/-- The chart widgets of a document, in visit order. -/
def cwDocL (doc : Document) : List Block :=
  doc.chapters.flatMap fun ch => cwBlocks ch.blocks

/-- Master characterization of `_convert_charts_to_svg` with a working
converter. -/
theorem convertChartsToSvg_eq (conv : Block → Option String) (doc : Document) :
    convertChartsToSvg (some conv) doc =
      ⟨foldIns [] (successes conv (cwDocL doc)), cwDocL doc⟩ := by
  have h := convertChartsLoop_adds conv doc.chapters (⟨[], []⟩ : ExtractState)
  simpa [convertChartsToSvg, cwDocL, foldIns] using h

/-- Nested occurrence of a block inside a block list, along the paths the
extraction recursion follows: direct membership, the nested `blocks` of a
member, an item of a member `list` block, or a cell of a member `table`
block. -/
inductive OccursIn : Block → List Block → Prop where
  | direct {x : Block} {bs : List Block} : x ∈ bs → OccursIn x bs
  | inSub {x b : Block} {bs : List Block} {s : List Block} :
      b ∈ bs → b.sub = some s → OccursIn x s → OccursIn x bs
  | inItem {x b : Block} {bs : List Block} {item : List Block} :
      b ∈ bs → b.btype = "list" → item ∈ b.items → OccursIn x item → OccursIn x bs
  | inCell {x b : Block} {bs : List Block} {row : List (List Block)} {cell : List Block} :
      b ∈ bs → b.btype = "table" → row ∈ b.rows → cell ∈ row → OccursIn x cell →
      OccursIn x bs

/-- Occurrence anywhere in a document. -/
def OccursInDoc (x : Block) (doc : Document) : Prop :=
  ∃ ch ∈ doc.chapters, OccursIn x ch.blocks

theorem occursIn_mono {x : Block} {bs₁ bs₂ : List Block}
    (hsub : ∀ b, b ∈ bs₁ → b ∈ bs₂) (h : OccursIn x bs₁) : OccursIn x bs₂ := by
  cases h with
  | direct hx => exact OccursIn.direct (hsub _ hx)
  | inSub hb hs hx => exact OccursIn.inSub (hsub _ hb) hs hx
  | inItem hb ht hi hx => exact OccursIn.inItem (hsub _ hb) ht hi hx
  | inCell hb ht hr hc hx => exact OccursIn.inCell (hsub _ hb) ht hr hc hx

theorem mem_cwBlocks_of_mem {x b : Block} {bs : List Block}
    (hb : b ∈ bs) (hx : x ∈ cwBlock b) : x ∈ cwBlocks bs := by
  induction bs with
  | nil => cases hb
  | cons hd rest ih =>
    rw [cwBlocks]
    rcases List.mem_cons.mp hb with h | h
    · exact List.mem_append_left _ (h ▸ hx)
    · exact List.mem_append_right _ (ih h)

theorem mem_cwItems_of_mem {x : Block} {item : List Block} {items : List (List Block)}
    (hi : item ∈ items) (hx : x ∈ cwBlocks item) : x ∈ cwItems items := by
  induction items with
  | nil => cases hi
  | cons hd rest ih =>
    rw [cwItems]
    rcases List.mem_cons.mp hi with h | h
    · exact List.mem_append_left _ (h ▸ hx)
    · exact List.mem_append_right _ (ih h)

theorem mem_cwCells_of_mem {x : Block} {cell : List Block} {row : List (List Block)}
    (hc : cell ∈ row) (hx : x ∈ cwBlocks cell) : x ∈ cwCells row := by
  induction row with
  | nil => cases hc
  | cons hd rest ih =>
    rw [cwCells]
    rcases List.mem_cons.mp hc with h | h
    · exact List.mem_append_left _ (h ▸ hx)
    · exact List.mem_append_right _ (ih h)

theorem mem_cwRows_of_mem {x : Block} {row : List (List Block)}
    {rows : List (List (List Block))}
    (hr : row ∈ rows) (hx : x ∈ cwCells row) : x ∈ cwRows rows := by
  induction rows with
  | nil => cases hr
  | cons hd rest ih =>
    rw [cwRows]
    rcases List.mem_cons.mp hr with h | h
    · exact List.mem_append_left _ (h ▸ hx)
    · exact List.mem_append_right _ (ih h)

theorem self_mem_cwBlock {b : Block} (hb : isChartWidgetB b = true) : b ∈ cwBlock b := by
  cases b with
  | mk t wid wt sub items rows =>
    rw [cwBlock.eq_def]
    simp only [hb, if_true]
    simp

theorem cwBlocks_mem_cwBlock_sub {x b : Block} {s : List Block}
    (hs : b.sub = some s) (hx : x ∈ cwBlocks s) : x ∈ cwBlock b := by
  cases b with
  | mk t wid wt sub items rows =>
    rw [cwBlock.eq_def]
    cases hs
    simp [hx]

theorem cwItems_mem_cwBlock {x b : Block}
    (ht : b.btype = "list") (hx : x ∈ cwItems b.items) : x ∈ cwBlock b := by
  cases b with
  | mk t wid wt sub items rows =>
    rw [cwBlock.eq_def]
    simp only [Block.btype] at ht
    simp only [Block.items] at hx
    simp [ht, hx]

theorem cwRows_mem_cwBlock {x b : Block}
    (ht : b.btype = "table") (hx : x ∈ cwRows b.rows) : x ∈ cwBlock b := by
  cases b with
  | mk t wid wt sub items rows =>
    rw [cwBlock.eq_def]
    simp only [Block.btype] at ht
    simp only [Block.rows] at hx
    simp [ht, hx]

/-- Completeness of the collection: every chart widget occurring at any
nesting depth is collected. -/
theorem mem_cwBlocks_of_occursIn {x : Block} {bs : List Block}
    (hocc : OccursIn x bs) (hcw : isChartWidgetB x = true) : x ∈ cwBlocks bs := by
  induction hocc with
  | direct hx => exact mem_cwBlocks_of_mem hx (self_mem_cwBlock hcw)
  | inSub hb hs _ ih => exact mem_cwBlocks_of_mem hb (cwBlocks_mem_cwBlock_sub hs ih)
  | inItem hb ht hi _ ih =>
    exact mem_cwBlocks_of_mem hb (cwItems_mem_cwBlock ht (mem_cwItems_of_mem hi ih))
  | inCell hb ht hr hc _ ih =>
    exact mem_cwBlocks_of_mem hb
      (cwRows_mem_cwBlock ht (mem_cwRows_of_mem hr (mem_cwCells_of_mem hc ih)))

mutual

/-- Soundness of the collection on block lists: everything collected is an
occurring chart widget. -/
theorem cwBlocks_sound (bs : List Block) :
    ∀ x ∈ cwBlocks bs, OccursIn x bs ∧ isChartWidgetB x = true := by
  match bs with
  | [] =>
    intro x hx
    rw [cwBlocks] at hx
    cases hx
  | b :: rest =>
    intro x hx
    rw [cwBlocks] at hx
    rcases List.mem_append.mp hx with h | h
    · obtain ⟨hocc, hcw⟩ := cwBlock_sound b x h
      refine ⟨occursIn_mono (fun y hy => ?_) hocc, hcw⟩
      rw [List.mem_singleton] at hy
      exact hy ▸ List.mem_cons_self b rest
    · obtain ⟨hocc, hcw⟩ := cwBlocks_sound rest x h
      exact ⟨occursIn_mono (fun y hy => List.mem_cons_of_mem b hy) hocc, hcw⟩

/-- Soundness of the collection on one block. -/
theorem cwBlock_sound (b : Block) :
    ∀ x ∈ cwBlock b, OccursIn x [b] ∧ isChartWidgetB x = true := by
  match b with
  | Block.mk t wid wt sub items rows =>
    intro x hx
    rw [cwBlock.eq_def] at hx
    simp only [List.mem_append] at hx
    rcases hx with ((h | h) | h) | h
    · by_cases hg : isChartWidgetB (Block.mk t wid wt sub items rows) = true
      · rw [if_pos hg, List.mem_singleton] at h
        exact ⟨OccursIn.direct (h ▸ List.mem_singleton_self _), h ▸ hg⟩
      · rw [if_neg hg] at h
        cases h
    · match sub with
      | some nested =>
        obtain ⟨hocc, hcw⟩ := cwBlocks_sound nested x h
        exact ⟨OccursIn.inSub (List.mem_singleton_self _) rfl hocc, hcw⟩
      | none => cases h
    · by_cases hl : (t == "list") = true
      · rw [if_pos hl] at h
        obtain ⟨⟨item, hitem, hocc⟩, hcw⟩ := cwItems_sound items x h
        exact ⟨OccursIn.inItem (List.mem_singleton_self _)
          (by simpa [Block.btype] using (beq_iff_eq.mp hl)) hitem hocc, hcw⟩
      · rw [if_neg hl] at h
        cases h
    · by_cases ht : (t == "table") = true
      · rw [if_pos ht] at h
        obtain ⟨⟨row, hrow, cell, hcell, hocc⟩, hcw⟩ := cwRows_sound rows x h
        exact ⟨OccursIn.inCell (List.mem_singleton_self _)
          (by simpa [Block.btype] using (beq_iff_eq.mp ht)) hrow hcell hocc, hcw⟩
      · rw [if_neg ht] at h
        cases h

/-- Soundness of the collection on list items. -/
theorem cwItems_sound (items : List (List Block)) :
    ∀ x ∈ cwItems items,
      (∃ item ∈ items, OccursIn x item) ∧ isChartWidgetB x = true := by
  match items with
  | [] =>
    intro x hx
    rw [cwItems] at hx
    cases hx
  | item :: rest =>
    intro x hx
    rw [cwItems] at hx
    rcases List.mem_append.mp hx with h | h
    · obtain ⟨hocc, hcw⟩ := cwBlocks_sound item x h
      exact ⟨⟨item, List.mem_cons_self _ _, hocc⟩, hcw⟩
    · obtain ⟨⟨it, hit, hocc⟩, hcw⟩ := cwItems_sound rest x h
      exact ⟨⟨it, List.mem_cons_of_mem _ hit, hocc⟩, hcw⟩

/-- Soundness of the collection on table rows. -/
theorem cwRows_sound (rows : List (List (List Block))) :
    ∀ x ∈ cwRows rows,
      (∃ row ∈ rows, ∃ cell ∈ row, OccursIn x cell) ∧ isChartWidgetB x = true := by
  match rows with
  | [] =>
    intro x hx
    rw [cwRows] at hx
    cases hx
  | row :: rest =>
    intro x hx
    rw [cwRows] at hx
    rcases List.mem_append.mp hx with h | h
    · obtain ⟨⟨cell, hcell, hocc⟩, hcw⟩ := cwCells_sound row x h
      exact ⟨⟨row, List.mem_cons_self _ _, cell, hcell, hocc⟩, hcw⟩
    · obtain ⟨⟨r, hr, cell, hcell, hocc⟩, hcw⟩ := cwRows_sound rest x h
      exact ⟨⟨r, List.mem_cons_of_mem _ hr, cell, hcell, hocc⟩, hcw⟩

/-- Soundness of the collection on the cells of one row. -/
theorem cwCells_sound (row : List (List Block)) :
    ∀ x ∈ cwCells row,
      (∃ cell ∈ row, OccursIn x cell) ∧ isChartWidgetB x = true := by
  match row with
  | [] =>
    intro x hx
    rw [cwCells] at hx
    cases hx
  | cell :: rest =>
    intro x hx
    rw [cwCells] at hx
    rcases List.mem_append.mp hx with h | h
    · obtain ⟨hocc, hcw⟩ := cwBlocks_sound cell x h
      exact ⟨⟨cell, List.mem_cons_self _ _, hocc⟩, hcw⟩
    · obtain ⟨⟨c, hc, hocc⟩, hcw⟩ := cwCells_sound rest x h
      exact ⟨⟨c, List.mem_cons_of_mem _ hc, hocc⟩, hcw⟩

end

/-- Document-level membership of the collected chart widgets. -/
theorem mem_cwDocL {x : Block} {doc : Document} :
    x ∈ cwDocL doc ↔ ∃ ch ∈ doc.chapters, x ∈ cwBlocks ch.blocks := by
  simp [cwDocL, List.mem_flatMap]

/-- Document-level soundness. -/
theorem cwDocL_sound {x : Block} {doc : Document} (hx : x ∈ cwDocL doc) :
    OccursInDoc x doc ∧ isChartWidgetB x = true := by
  obtain ⟨ch, hch, hmem⟩ := mem_cwDocL.mp hx
  obtain ⟨hocc, hcw⟩ := cwBlocks_sound ch.blocks x hmem
  exact ⟨⟨ch, hch, hocc⟩, hcw⟩

/-- Document-level completeness. -/
theorem cwDocL_complete {x : Block} {doc : Document}
    (hocc : OccursInDoc x doc) (hcw : isChartWidgetB x = true) : x ∈ cwDocL doc := by
  obtain ⟨ch, hch, hin⟩ := hocc
  exact mem_cwDocL.mpr ⟨ch, hch, mem_cwBlocks_of_occursIn hin hcw⟩

/-- The keys of a Python-style dict. -/
def keys (m : List (String × String)) : List String := m.map Prod.fst

/-- Python dict lookup. -/
def lookupD (m : List (String × String)) (k : String) : Option String :=
  (m.find? fun p => p.1 == k).map Prod.snd

/-- The in-place replacement `dictInsert` performs on an existing key. -/
def replaceK (k v : String) (p : String × String) : String × String :=
  if p.1 == k then (k, v) else p

theorem dictInsert_eq (m : List (String × String)) (k v : String) :
    dictInsert m k v =
      if m.any (fun p => p.1 == k) then m.map (replaceK k v) else m ++ [(k, v)] := by
  unfold dictInsert replaceK
  rfl

theorem replaceK_key_beq (k v a : String) (p : String × String) :
    ((replaceK k v p).1 == a) = (if (a == k) then (p.1 == a) else (p.1 == a)) := by
  unfold replaceK
  by_cases hpk : (p.1 == k) = true
  · rw [if_pos hpk]
    by_cases hak : (a == k) = true
    · have h1 : p.1 = k := beq_iff_eq.mp hpk
      have h2 : a = k := beq_iff_eq.mp hak
      simp [hak, h1, h2]
    · have h1 : p.1 = k := beq_iff_eq.mp hpk
      have h2 : a ≠ k := fun hc => hak (beq_iff_eq.mpr hc)
      have : ((k : String) == a) = false := by
        rw [beq_eq_false_iff_ne]
        exact fun hc => h2 hc.symm
      have : (p.1 == a) = false := by
        rw [beq_eq_false_iff_ne, h1]
        exact fun hc => h2 hc.symm
      simp_all
  · rw [if_neg hpk]
    simp

theorem lookupD_dictInsert_self {m : List (String × String)} {k v : String} :
    lookupD (dictInsert m k v) k = some v := by
  rw [dictInsert_eq]
  by_cases h : m.any (fun p => p.1 == k) = true
  · rw [if_pos h]
    unfold lookupD
    rw [List.find?_map]
    have hpred : ((fun p : String × String => p.1 == k) ∘ replaceK k v) =
        fun p : String × String => p.1 == k := by
      funext p
      have := replaceK_key_beq k v k p
      simpa using this
    rw [hpred]
    obtain ⟨q, hq, hqk⟩ := List.any_eq_true.mp h
    have hsome : (m.find? fun p => p.1 == k).isSome = true :=
      List.find?_isSome.mpr ⟨q, hq, hqk⟩
    obtain ⟨r, hr⟩ := Option.isSome_iff_exists.mp hsome
    have hrk : (r.1 == k) = true := List.find?_some (p := fun q : String × String => q.1 == k) hr
    rw [hr]
    simp [replaceK, hrk]
  · rw [if_neg h]
    unfold lookupD
    rw [List.find?_append]
    have hnone : m.find? (fun p => p.1 == k) = none := by
      rw [List.find?_eq_none]
      intro x hx
      rw [Bool.not_eq_true, List.any_eq_false] at h
      exact fun hc => (h x hx) hc
    rw [hnone]
    simp

theorem lookupD_dictInsert_other {m : List (String × String)} {k v a : String}
    (hak : a ≠ k) : lookupD (dictInsert m k v) a = lookupD m a := by
  rw [dictInsert_eq]
  by_cases h : m.any (fun p => p.1 == k) = true
  · rw [if_pos h]
    unfold lookupD
    rw [List.find?_map]
    have hpred : ((fun p : String × String => p.1 == a) ∘ replaceK k v) =
        fun p : String × String => p.1 == a := by
      funext p
      have := replaceK_key_beq k v a p
      simpa using this
    rw [hpred]
    cases hfind : m.find? (fun p => p.1 == a) with
    | none => simp
    | some q =>
      have hqa : (q.1 == a) = true := List.find?_some (p := fun q : String × String => q.1 == a) hfind
      have hqk : ¬(q.1 == k) = true := by
        rw [beq_iff_eq] at hqa ⊢
        rw [hqa]
        exact hak
      simp [replaceK, hqk]
  · rw [if_neg h]
    unfold lookupD
    rw [List.find?_append]
    have : ([(k, v)].find? fun p => p.1 == a) = none := by
      rw [List.find?_eq_none]
      intro x hx
      rw [List.mem_singleton] at hx
      subst hx
      simp only [beq_iff_eq]
      exact fun hc => hak hc.symm
    rw [this, Option.or_none]

theorem lookupD_eq_none_iff {m : List (String × String)} {k : String} :
    lookupD m k = none ↔ k ∉ keys m := by
  unfold lookupD keys
  rw [Option.map_eq_none', List.find?_eq_none]
  constructor
  · intro h hk
    obtain ⟨p, hp, hpk⟩ := List.mem_map.mp hk
    exact h p hp (by simpa [hpk])
  · intro h p hp hpk
    exact h (List.mem_map.mpr ⟨p, hp, beq_iff_eq.mp hpk⟩)

/-- Lookup after a batch insertion: the last matching entry of the batch
wins, else the original binding. -/
theorem lookupD_foldIns {m : List (String × String)} {l : List (String × String)}
    {k : String} :
    lookupD (foldIns m l) k =
      match l.reverse.find? (fun p => p.1 == k) with
      | some p => some p.2
      | none => lookupD m k := by
  induction l generalizing m with
  | nil => simp [foldIns]
  | cons p rest ih =>
    show lookupD (foldIns (dictInsert m p.1 p.2) rest) k = _
    rw [ih]
    rw [List.reverse_cons, List.find?_append]
    cases hfind : rest.reverse.find? (fun q => q.1 == k) with
    | some q => simp [hfind, Option.or]
    | none =>
      simp only [hfind, Option.none_or]
      by_cases hpk : (p.1 == k) = true
      · have : k = p.1 := (beq_iff_eq.mp hpk).symm
        subst this
        simp [lookupD_dictInsert_self]
      · have : k ≠ p.1 := fun hc => hpk (beq_iff_eq.mpr hc.symm)
        simp [List.find?_cons, hpk, lookupD_dictInsert_other this]

/-! HTML model.  The base HTML produced by the HTML renderer is modelled as
a node sequence at the granularity the patching regexes operate on: a
chart-config script element (carrying its element id and the widget id in
its JSON payload), a canvas placeholder referencing a config element id,
an injected vector container, the PDF style block, the head-closing tag,
and arbitrary other markup. -/

/-- One HTML node at patching granularity. -/
inductive HNode : Type where
  | configScript (elemId : String) (widgetId : String)
  | canvas (configId : String)
  | svgContainer (content : String)
  | styleBlock (fontFormat : String) (fontData : String) (css : String)
  | headClose
  | text (s : String)
deriving DecidableEq

/-- Split a character stream at the first `>`. -/
def splitAtGt : List Char → Option (List Char × List Char)
  | [] => none
  | c :: cs =>
    if c = '>' then some ([], cs)
    else
      match splitAtGt cs with
      | some (mid, post) => some (c :: mid, post)
      | none => none

theorem splitAtGt_post_lt {cs mid post : List Char}
    (h : splitAtGt cs = some (mid, post)) : post.length < cs.length := by
  induction cs generalizing mid with
  | nil => simp [splitAtGt] at h
  | cons c rest ih =>
    rw [splitAtGt] at h
    by_cases hc : c = '>'
    · rw [if_pos hc] at h
      cases h
      simp
    · rw [if_neg hc] at h
      cases hrec : splitAtGt rest with
      | none => rw [hrec] at h; cases h
      | some q =>
        rw [hrec] at h
        cases h
        have := ih hrec
        simpa using Nat.lt_succ_of_lt this

/-- Match of the pattern removing XML declarations
(`<\x3f xml` then one or more non-`>` characters ending in `\x3f`, then
`>`): returns the stream after the match. -/
def matchXmlDecl : List Char → Option (List Char)
  | '<' :: '?' :: 'x' :: 'm' :: 'l' :: rest =>
    (match splitAtGt rest with
     | some (mid, post) =>
       if 2 ≤ mid.length ∧ mid.getLast? = some '?' then some post else none
     | none => none)
  | _ => none

theorem matchXmlDecl_lt {cs post : List Char}
    (h : matchXmlDecl cs = some post) : post.length < cs.length := by
  rw [matchXmlDecl.eq_def] at h
  split at h
  case h_1 rest =>
    cases hs : splitAtGt rest with
    | none => rw [hs] at h; cases h
    | some q =>
      obtain ⟨mid, post1⟩ := q
      rw [hs] at h
      dsimp only at h
      by_cases hq : 2 ≤ mid.length ∧ mid.getLast? = some '?'
      · rw [if_pos hq] at h
        cases h
        have := splitAtGt_post_lt hs
        simp only [List.length_cons]
        omega
      · rw [if_neg hq] at h
        cases h
  case h_2 => cases h

/-- Match of the pattern removing document type declarations
(`<!DOCTYPE` then one or more non-`>` characters, then `>`). -/
def matchDoctype : List Char → Option (List Char)
  | '<' :: '!' :: 'D' :: 'O' :: 'C' :: 'T' :: 'Y' :: 'P' :: 'E' :: rest =>
    (match splitAtGt rest with
     | some (mid, post) =>
       if 1 ≤ mid.length then some post else none
     | none => none)
  | _ => none

theorem matchDoctype_lt {cs post : List Char}
    (h : matchDoctype cs = some post) : post.length < cs.length := by
  rw [matchDoctype.eq_def] at h
  split at h
  case h_1 rest =>
    cases hs : splitAtGt rest with
    | none => rw [hs] at h; cases h
    | some q =>
      obtain ⟨mid, post1⟩ := q
      rw [hs] at h
      dsimp only at h
      by_cases hq : 1 ≤ mid.length
      · rw [if_pos hq] at h
        cases h
        have := splitAtGt_post_lt hs
        simp only [List.length_cons]
        omega
      · rw [if_neg hq] at h
        cases h
  case h_2 => cases h

/-- Left-to-right removal of all non-overlapping XML declarations
(`re.sub` with empty replacement). -/
def removeXmlDecls : List Char → List Char
  | [] => []
  | c :: cs =>
    match h : matchXmlDecl (c :: cs) with
    | some post => removeXmlDecls post
    | none => c :: removeXmlDecls cs
termination_by l => l.length
decreasing_by
  · exact matchXmlDecl_lt h
  · simp

/-- Left-to-right removal of all non-overlapping DOCTYPE declarations. -/
def removeDoctypes : List Char → List Char
  | [] => []
  | c :: cs =>
    match h : matchDoctype (c :: cs) with
    | some post => removeDoctypes post
    | none => c :: removeDoctypes cs
termination_by l => l.length
decreasing_by
  · exact matchDoctype_lt h
  · simp

/-- The SVG cleaning of `_inject_svg_into_html`: drop XML declarations,
drop DOCTYPE declarations, then strip surrounding whitespace. -/
def stripSvgContent (svg : String) : String :=
  (String.mk (removeDoctypes (removeXmlDecls svg.data))).trim

/-- `re.search` for the first config script whose JSON carries the widget
id, returning the element id of that script. -/
def findConfigScript : List HNode → String → Option String
  | [], _ => none
  | HNode.configScript elemId wid :: rest, w =>
    if wid = w then some elemId else findConfigScript rest w
  | HNode.canvas _ :: rest, w => findConfigScript rest w
  | HNode.svgContainer _ :: rest, w => findConfigScript rest w
  | HNode.styleBlock _ _ _ :: rest, w => findConfigScript rest w
  | HNode.headClose :: rest, w => findConfigScript rest w
  | HNode.text _ :: rest, w => findConfigScript rest w

/-- `re.sub` of every canvas placeholder referencing the config element id
by the replacement markup. -/
def replaceCanvas (html : List HNode) (cid : String) (repl : HNode) : List HNode :=
  html.map (fun n =>
    match n with
    | HNode.canvas c => if c = cid then repl else HNode.canvas c
    | other => other)

/-- The body of the per-widget loop of `_inject_svg_into_html`. -/
def injectOne (html : List HNode) (wid svg : String) : List HNode :=
  match findConfigScript html wid with
  | some cid => replaceCanvas html cid (HNode.svgContainer (stripSvgContent svg))
  | none => html

/-- The `for widget_id, svg_content in svg_map.items()` loop. -/
def injectLoop (html : List HNode) (m : List (String × String)) : List HNode :=
  m.foldl (fun h p => injectOne h p.1 p.2) html

/-- `_inject_svg_into_html`: early return on an empty map, else the
per-widget loop. -/
def injectSvgIntoHtml (html : List HNode) (m : List (String × String)) : List HNode :=
  if m.isEmpty then html else injectLoop html m

/-- The per-node effect of the whole injection loop: a canvas is replaced
by the vector container of the first map entry whose config script
resolves to its config id; every other node is left as is. -/
def patchFun (html : List HNode) (m : List (String × String)) (n : HNode) : HNode :=
  match n with
  | HNode.canvas c =>
    (match m.find? (fun p => findConfigScript html p.1 == some c) with
     | some p => HNode.svgContainer (stripSvgContent p.2)
     | none => HNode.canvas c)
  | other => other

theorem findConfigScript_replaceCanvas (html : List HNode) (cid s w : String) :
    findConfigScript (replaceCanvas html cid (HNode.svgContainer s)) w =
      findConfigScript html w := by
  induction html with
  | nil => rfl
  | cons n rest ih =>
    cases n with
    | configScript e wi =>
      show findConfigScript (HNode.configScript e wi :: replaceCanvas rest cid _) w = _
      rw [findConfigScript, findConfigScript]
      by_cases hw : wi = w
      · rw [if_pos hw, if_pos hw]
      · rw [if_neg hw, if_neg hw, ih]
    | canvas c =>
      show findConfigScript
          ((if c = cid then HNode.svgContainer s else HNode.canvas c) ::
            replaceCanvas rest cid _) w = _
      by_cases hc : c = cid
      · rw [if_pos hc, findConfigScript, findConfigScript, ih]
      · rw [if_neg hc, findConfigScript, findConfigScript, ih]
    | svgContainer x =>
      show findConfigScript (HNode.svgContainer x :: replaceCanvas rest cid _) w = _
      rw [findConfigScript, findConfigScript, ih]
    | styleBlock a b c =>
      show findConfigScript (HNode.styleBlock a b c :: replaceCanvas rest cid _) w = _
      rw [findConfigScript, findConfigScript, ih]
    | headClose =>
      show findConfigScript (HNode.headClose :: replaceCanvas rest cid _) w = _
      rw [findConfigScript, findConfigScript, ih]
    | text x =>
      show findConfigScript (HNode.text x :: replaceCanvas rest cid _) w = _
      rw [findConfigScript, findConfigScript, ih]

theorem findConfigScript_injectOne (html : List HNode) (w s w' : String) :
    findConfigScript (injectOne html w s) w' = findConfigScript html w' := by
  unfold injectOne
  cases hf : findConfigScript html w with
  | none => rfl
  | some cid => exact findConfigScript_replaceCanvas html cid _ w'

theorem patchFun_congr {html html' : List HNode} (m : List (String × String))
    (h : ∀ w, findConfigScript html' w = findConfigScript html w) :
    patchFun html' m = patchFun html m := by
  funext n
  cases n with
  | canvas c =>
    show (match m.find? (fun p => findConfigScript html' p.1 == some c) with
      | some p => HNode.svgContainer (stripSvgContent p.2)
      | none => HNode.canvas c) = _
    have : (fun p : String × String => findConfigScript html' p.1 == some c) =
        (fun p : String × String => findConfigScript html p.1 == some c) := by
      funext p
      rw [h]
    rw [this]
    rfl
  | configScript e wi => rfl
  | svgContainer x => rfl
  | styleBlock a b c => rfl
  | headClose => rfl
  | text x => rfl

theorem patchFun_nil (html : List HNode) (n : HNode) : patchFun html [] n = n := by
  cases n <;> rfl

/-- The injection loop acts as a per-node map. -/
theorem injectLoop_eq_map (m : List (String × String)) :
    ∀ html : List HNode, injectLoop html m = html.map (patchFun html m) := by
  induction m with
  | nil =>
    intro html
    show html = html.map (patchFun html [])
    have h1 : List.map (patchFun html []) html = List.map id html :=
      List.map_congr_left (fun n _ => patchFun_nil html n)
    rw [h1, List.map_id]
  | cons p rest ih =>
    intro html
    show injectLoop (injectOne html p.1 p.2) rest = _
    rw [ih (injectOne html p.1 p.2)]
    rw [patchFun_congr rest (findConfigScript_injectOne html p.1 p.2)]
    cases hf : findConfigScript html p.1 with
    | none =>
      unfold injectOne
      rw [hf]
      apply List.map_congr_left
      intro n _
      cases n with
      | canvas c =>
        show (match rest.find? (fun q => findConfigScript html q.1 == some c) with
          | some q => HNode.svgContainer (stripSvgContent q.2)
          | none => HNode.canvas c) = _
        have hp : (findConfigScript html p.1 == some c) = false := by
          rw [hf]
          rfl
        show _ = (match (p :: rest).find? (fun q => findConfigScript html q.1 == some c) with
          | some q => HNode.svgContainer (stripSvgContent q.2)
          | none => HNode.canvas c)
        rw [List.find?_cons, hp]
      | configScript e wi => rfl
      | svgContainer x => rfl
      | styleBlock a b c => rfl
      | headClose => rfl
      | text x => rfl
    | some cid =>
      unfold injectOne
      rw [hf]
      unfold replaceCanvas
      rw [List.map_map]
      apply List.map_congr_left
      intro n _
      cases n with
      | canvas c =>
        by_cases hc : c = cid
        · have hp : (findConfigScript html p.1 == some c) = true := by
            rw [hf, hc]
            exact beq_self_eq_true _
          show patchFun html rest (if c = cid then _ else _) =
            patchFun html (p :: rest) (HNode.canvas c)
          rw [if_pos hc]
          show HNode.svgContainer (stripSvgContent p.2) = _
          show _ = (match (p :: rest).find? (fun q => findConfigScript html q.1 == some c) with
            | some q => HNode.svgContainer (stripSvgContent q.2)
            | none => HNode.canvas c)
          rw [List.find?_cons, hp]
        · have hp : (findConfigScript html p.1 == some c) = false := by
            rw [hf]
            simp only [beq_eq_false_iff_ne, ne_eq, Option.some.injEq]
            exact fun hcc => hc hcc.symm
          show patchFun html rest (if c = cid then _ else _) =
            patchFun html (p :: rest) (HNode.canvas c)
          rw [if_neg hc]
          show (match rest.find? (fun q => findConfigScript html q.1 == some c) with
            | some q => HNode.svgContainer (stripSvgContent q.2)
            | none => HNode.canvas c) = _
          show _ = (match (p :: rest).find? (fun q => findConfigScript html q.1 == some c) with
            | some q => HNode.svgContainer (stripSvgContent q.2)
            | none => HNode.canvas c)
          rw [List.find?_cons, hp]
      | configScript e wi => rfl
      | svgContainer x => rfl
      | styleBlock a b c => rfl
      | headClose => rfl
      | text x => rfl

/-- The whole patch step acts as a per-node map. -/
theorem injectSvgIntoHtml_eq_map (html : List HNode) (m : List (String × String)) :
    injectSvgIntoHtml html m = html.map (patchFun html m) := by
  unfold injectSvgIntoHtml
  by_cases hm : m.isEmpty = true
  · rw [if_pos hm]
    have : m = [] := List.isEmpty_iff.mp hm
    subst this
    have h1 : List.map (patchFun html []) html = List.map id html :=
      List.map_congr_left (fun n _ => patchFun_nil html n)
    rw [h1, List.map_id]
  · rw [if_neg hm]
    exact injectLoop_eq_map m html

/-! Render pipeline.  `_get_pdf_html`, `render_to_pdf` and `render_to_bytes`
orchestrate the collaborators.  Filesystem and collaborator effects are
recorded as an event trace in program order. -/

/-- The three font file candidates of `_get_font_path`, in precedence
order. -/
inductive FontFile : Type where
  | fullOtf
  | subsetTtf
  | subsetOtf
deriving DecidableEq, Repr

/-- Which of the three font candidates exist on disk. -/
structure FontFS : Type where
  fullOtf : Bool
  subsetTtf : Bool
  subsetOtf : Bool
deriving DecidableEq, Repr

/-- The error message raised when no candidate exists. -/
def fontNotFoundMsg : String := "未找到字体文件，请检查 assets/fonts 目录"

/-- `_get_font_path`: check the full font, then the TTF subset, then the
OTF subset; raise `FileNotFoundError` when none exists. -/
def getFontPath (fs : FontFS) : Except String FontFile :=
  if fs.fullOtf then Except.ok FontFile.fullOtf
  else if fs.subsetTtf then Except.ok FontFile.subsetTtf
  else if fs.subsetOtf then Except.ok FontFile.subsetOtf
  else Except.error fontNotFoundMsg

/-- Modelled from the spec: reference font selection, following the words
"select exactly one font file from a fixed precedence order (full font,
then TrueType subset, then OpenType subset); fail fast with a descriptive
error if none exist". -/
def fontPrecedenceSpec (fs : FontFS) : Except String FontFile :=
  if fs.fullOtf then Except.ok FontFile.fullOtf
  else if fs.subsetTtf then Except.ok FontFile.subsetTtf
  else if fs.subsetOtf then Except.ok FontFile.subsetOtf
  else Except.error fontNotFoundMsg

/-- The font format tag of `_get_pdf_html`: `opentype` for an `.otf`
suffix, `truetype` otherwise. -/
def fontFormatOf (f : FontFile) : String :=
  if f = FontFile.subsetTtf then "truetype" else "opentype"

/-- Observable effects of one render call, in program order. -/
inductive Event : Type where
  | optimizeForDocument
  | mkdirLogs
  | analyzeDocument
  | saveConfigLog
  | convertCharts
  | renderBaseHtml
  | injectSvgStep
  | fontCheck
  | readFont
  | rasterize
  | logError (msg : String)
deriving DecidableEq, Repr

/-- Modelled from the spec: the Layout Configuration, "a value object of
named tuning parameters (margins, scale factors, pagination hints)"
(`pdf_layout_optimizer.py` is not among the given sources); the parameters
are kept abstract as a payload value. -/
structure PDFLayoutConfig : Type where
  params : List (String × String)
deriving DecidableEq

/-- Modelled from the spec: the Layout Optimizer collaborator
(`pdf_layout_optimizer.py` is not among the given sources), exposing
`optimize_for_document`, `_analyze_document`, `_log_optimization`,
`generate_pdf_css` and holding a current `config`; all deterministic
functions of the document per "deterministically derive a layout
configuration". -/
structure PDFLayoutOptimizer : Type where
  config : PDFLayoutConfig
  optimizeForDocument : Document → PDFLayoutConfig
  analyzeDocument : Document → String
  logOptimization : String → PDFLayoutConfig → String
  generateCss : PDFLayoutConfig → String

/-- Modelled from the spec: the collaborators a `PDFRenderer` holds.  The
HTML renderer produces the base node sequence; the chart converter may be
absent when its construction failed; the rasterizer is the external
HTML-to-PDF engine, deterministic up to embedded timestamps, which are
outside the model; font data per existing candidate stands for the bytes
`read_bytes` returns. -/
structure RenderEnv : Type where
  optimizer : PDFLayoutOptimizer
  converter : Option (Block → Option String)
  renderHtml : Document → List HNode
  fonts : FontFS
  fontData : FontFile → String
  raster : List HNode → Except String (List Nat)

/-- Result of one render call: the value or the propagated exception, the
optimizer state after the call, and the event trace. -/
structure RenderOutcome (α : Type) : Type where
  result : Except String α
  optimizer : PDFLayoutOptimizer
  events : List Event

/-- The `html.replace` of `</head>` by the PDF style block followed by
`</head>`: insert the style block before every head-closing node. -/
def insertStyleBeforeHeadClose (html : List HNode) (fontFormat fontData css : String) :
    List HNode :=
  html.flatMap (fun n =>
    match n with
    | HNode.headClose => [HNode.styleBlock fontFormat fontData css, HNode.headClose]
    | other => [other])

/-- `_get_pdf_html`: optional layout optimization with audit logging, chart
conversion, base HTML rendering, SVG injection, font selection and
embedding, and style insertion, in program order. -/
def getPdfHtml (env : RenderEnv) (doc : Document) (optimizeLayout : Bool) :
    RenderOutcome (List HNode) :=
  let step1 :=
    if optimizeLayout then
      let layoutConfig := env.optimizer.optimizeForDocument doc
      let analysis := env.optimizer.analyzeDocument doc
      let optimizationLog := env.optimizer.logOptimization analysis layoutConfig
      let _ := optimizationLog
      ({ env.optimizer with config := layoutConfig },
        [Event.optimizeForDocument, Event.mkdirLogs, Event.analyzeDocument,
          Event.saveConfigLog])
    else
      (env.optimizer, ([] : List Event))
  let opt := step1.1
  let svgMap := (convertChartsToSvg env.converter doc).svgMap
  let html0 := env.renderHtml doc
  let ev2 := step1.2 ++ [Event.convertCharts, Event.renderBaseHtml]
  let step3 :=
    if svgMap.isEmpty then (html0, ev2)
    else (injectSvgIntoHtml html0 svgMap, ev2 ++ [Event.injectSvgStep])
  match getFontPath env.fonts with
  | Except.error e =>
    ⟨Except.error e, opt, step3.2 ++ [Event.fontCheck]⟩
  | Except.ok f =>
    let fontData := env.fontData f
    let fontFormat := fontFormatOf f
    let optimizedCss := opt.generateCss opt.config
    let htmlF := insertStyleBeforeHeadClose step3.1 fontFormat fontData optimizedCss
    ⟨Except.ok htmlF, opt, step3.2 ++ [Event.fontCheck, Event.readFont]⟩

/-- `render_to_pdf`: build the HTML, rasterize to the output path; a
rasterization failure is logged and re-raised; an HTML-stage failure
propagates uncaught.  On success the written bytes are returned with the
path. -/
def renderToPdf (env : RenderEnv) (doc : Document) (outputPath : String)
    (optimizeLayout : Bool) : RenderOutcome (String × List Nat) :=
  let o := getPdfHtml env doc optimizeLayout
  match o.result with
  | Except.error e => ⟨Except.error e, o.optimizer, o.events⟩
  | Except.ok html =>
    match env.raster html with
    | Except.ok bytes =>
      ⟨Except.ok (outputPath, bytes), o.optimizer, o.events ++ [Event.rasterize]⟩
    | Except.error e =>
      ⟨Except.error e, o.optimizer, o.events ++ [Event.rasterize, Event.logError e]⟩

/-- `render_to_bytes`: build the HTML, rasterize to bytes; there is no
try/except here, so failures propagate unchanged and unlogged. -/
def renderToBytes (env : RenderEnv) (doc : Document) (optimizeLayout : Bool) :
    RenderOutcome (List Nat) :=
  let o := getPdfHtml env doc optimizeLayout
  match o.result with
  | Except.error e => ⟨Except.error e, o.optimizer, o.events⟩
  | Except.ok html =>
    match env.raster html with
    | Except.ok bytes => ⟨Except.ok bytes, o.optimizer, o.events ++ [Event.rasterize]⟩
    | Except.error e => ⟨Except.error e, o.optimizer, o.events ++ [Event.rasterize]⟩

/-! State-passing variant of the extraction.  The Python traversal receives
the mutable block dictionaries; to express that it never writes to them,
the same recursion is embedded handing every traversed structure back, so
that "no mutation" is the theorem that the returned structure equals the
input. -/

mutual

/-- `_extract_and_convert_widgets` with the traversed block list handed
back. -/
def extractBlocksT (conv : Block → Option String) :
    List Block → ExtractState → List Block × ExtractState
  | [], st => ([], st)
  | b :: rest, st =>
    let r1 := extractBlockT conv b st
    let r2 := extractBlocksT conv rest r1.2
    (r1.1 :: r2.1, r2.2)

/-- One block of the state-passing traversal, handed back re-assembled
from its traversed parts. -/
def extractBlockT (conv : Block → Option String) :
    Block → ExtractState → Block × ExtractState
  | Block.mk t wid wt sub items rows, st =>
    let st1 := processWidget conv (Block.mk t wid wt sub items rows) st
    let r2 := match sub with
      | some nested =>
        let r := extractBlocksT conv nested st1
        (some r.1, r.2)
      | none => (none, st1)
    let r3 := if t == "list" then extractItemsT conv items r2.2 else (items, r2.2)
    let r4 := if t == "table" then extractRowsT conv rows r3.2 else (rows, r3.2)
    (Block.mk t wid wt r2.1 r3.1 r4.1, r4.2)

/-- The items loop of the state-passing traversal. -/
def extractItemsT (conv : Block → Option String) :
    List (List Block) → ExtractState → List (List Block) × ExtractState
  | [], st => ([], st)
  | item :: rest, st =>
    let r1 := extractBlocksT conv item st
    let r2 := extractItemsT conv rest r1.2
    (r1.1 :: r2.1, r2.2)

/-- The rows loop of the state-passing traversal. -/
def extractRowsT (conv : Block → Option String) :
    List (List (List Block)) → ExtractState → List (List (List Block)) × ExtractState
  | [], st => ([], st)
  | row :: rest, st =>
    let r1 := extractCellsT conv row st
    let r2 := extractRowsT conv rest r1.2
    (r1.1 :: r2.1, r2.2)

/-- The cells loop of the state-passing traversal. -/
def extractCellsT (conv : Block → Option String) :
    List (List Block) → ExtractState → List (List Block) × ExtractState
  | [], st => ([], st)
  | cell :: rest, st =>
    let r1 := extractBlocksT conv cell st
    let r2 := extractCellsT conv rest r1.2
    (r1.1 :: r2.1, r2.2)

end

/-- `_convert_charts_to_svg` with the document handed back. -/
def convertChartsToSvgT (conv : Block → Option String) (doc : Document) :
    Document × ExtractState :=
  let r := doc.chapters.foldl
    (fun (acc : List Chapter × ExtractState) ch =>
      let rc := extractBlocksT conv ch.blocks acc.2
      (acc.1 ++ [⟨rc.1⟩], rc.2))
    ([], ⟨[], []⟩)
  (⟨r.1⟩, r.2)

mutual

/-- The state-passing traversal returns its block list unchanged and
computes the same state as the plain traversal. -/
theorem extractBlocksT_eq (conv : Block → Option String) (bs : List Block)
    (st : ExtractState) :
    extractBlocksT conv bs st = (bs, extractBlocks conv bs st) := by
  match bs with
  | [] => rw [extractBlocksT, extractBlocks]
  | b :: rest =>
    rw [extractBlocksT, extractBlocks]
    rw [extractBlockT_eq conv b st]
    rw [extractBlocksT_eq conv rest (extractBlock conv b st)]

/-- One block of the state-passing traversal is handed back unchanged. -/
theorem extractBlockT_eq (conv : Block → Option String) (b : Block)
    (st : ExtractState) :
    extractBlockT conv b st = (b, extractBlock conv b st) := by
  match b with
  | Block.mk t wid wt sub items rows =>
    cases sub with
    | some nested =>
      have hn := fun s => extractBlocksT_eq conv nested s
      have hits := fun s => extractItemsT_eq conv items s
      have hrows := fun s => extractRowsT_eq conv rows s
      by_cases hl : (t == "list") = true <;> by_cases ht : (t == "table") = true <;>
        simp [extractBlockT.eq_def, extractBlock.eq_def, hn, hits, hrows, hl, ht]
    | none =>
      have hits := fun s => extractItemsT_eq conv items s
      have hrows := fun s => extractRowsT_eq conv rows s
      by_cases hl : (t == "list") = true <;> by_cases ht : (t == "table") = true <;>
        simp [extractBlockT.eq_def, extractBlock.eq_def, hits, hrows, hl, ht]

/-- The items loop hands its items back unchanged. -/
theorem extractItemsT_eq (conv : Block → Option String) (items : List (List Block))
    (st : ExtractState) :
    extractItemsT conv items st = (items, extractItems conv items st) := by
  match items with
  | [] => rw [extractItemsT, extractItems]
  | item :: rest =>
    rw [extractItemsT, extractItems]
    rw [extractBlocksT_eq conv item st]
    rw [extractItemsT_eq conv rest (extractBlocks conv item st)]

/-- The rows loop hands its rows back unchanged. -/
theorem extractRowsT_eq (conv : Block → Option String) (rows : List (List (List Block)))
    (st : ExtractState) :
    extractRowsT conv rows st = (rows, extractRows conv rows st) := by
  match rows with
  | [] => rw [extractRowsT, extractRows]
  | row :: rest =>
    rw [extractRowsT, extractRows]
    rw [extractCellsT_eq conv row st]
    rw [extractRowsT_eq conv rest (extractCells conv row st)]

/-- The cells loop hands its cells back unchanged. -/
theorem extractCellsT_eq (conv : Block → Option String) (cells : List (List Block))
    (st : ExtractState) :
    extractCellsT conv cells st = (cells, extractCells conv cells st) := by
  match cells with
  | [] => rw [extractCellsT, extractCells]
  | cell :: rest =>
    rw [extractCellsT, extractCells]
    rw [extractBlocksT_eq conv cell st]
    rw [extractCellsT_eq conv rest (extractBlocks conv cell st)]

end

theorem convertChartsLoopT_eq (conv : Block → Option String) (chs : List Chapter)
    (acc : List Chapter) (st : ExtractState) :
    chs.foldl
      (fun (a : List Chapter × ExtractState) ch =>
        let rc := extractBlocksT conv ch.blocks a.2
        (a.1 ++ [⟨rc.1⟩], rc.2))
      (acc, st) =
    (acc ++ chs, chs.foldl (fun s ch => extractBlocks conv ch.blocks s) st) := by
  induction chs generalizing acc st with
  | nil => simp
  | cons ch rest ih =>
    simp only [List.foldl_cons]
    rw [extractBlocksT_eq conv ch.blocks st]
    rw [ih]
    simp

/-! Shared concrete sample values used by the closed witness and
counterexample theorems. -/

/-- A chart widget block nested three levels deep below. -/
def wChart : Block := Block.mk "widget" (some "w1") "chart.js/bar" none [] []

/-- A list block holding the chart widget as its single item. -/
def wList : Block := Block.mk "list" none "" none [[wChart]] []

/-- A table block holding the list in its single cell. -/
def wTable : Block := Block.mk "table" none "" none [] [[[wList]]]

/-- A document whose only chart widget sits table → cell → list →
widget. -/
def sampleDocNested : Document := ⟨[⟨[wTable]⟩]⟩

/-- The empty document. -/
def sampleDocEmpty : Document := ⟨[]⟩

/-- A converter succeeding with a fixed vector image. -/
def sampleConv : Block → Option String := fun _ => some "<svg>ok</svg>"

/-- A sample layout optimizer state. -/
def sampleOptimizer : PDFLayoutOptimizer :=
  ⟨⟨[("margin", "15mm")]⟩, fun _ => ⟨[("margin", "12mm")]⟩, fun _ => "analysis",
    fun a _ => a, fun _ => "bodycss"⟩

/-- A sample environment: all fonts present, no chart converter, trivial
base HTML, rasterizer succeeding with fixed bytes. -/
def sampleEnv : RenderEnv :=
  ⟨sampleOptimizer, none, fun _ => [HNode.text "body", HNode.headClose],
    ⟨true, false, false⟩, fun _ => "FONTDATA", fun _ => Except.ok [37, 80, 68, 70]⟩

/-- The sample environment with every font candidate absent. -/
def sampleEnvNoFont : RenderEnv :=
  ⟨sampleOptimizer, none, fun _ => [HNode.text "body", HNode.headClose],
    ⟨false, false, false⟩, fun _ => "FONTDATA", fun _ => Except.ok [37, 80, 68, 70]⟩

/-- The sample environment with a failing rasterizer. -/
def sampleEnvRasterFail : RenderEnv :=
  ⟨sampleOptimizer, none, fun _ => [HNode.text "body", HNode.headClose],
    ⟨true, false, false⟩, fun _ => "FONTDATA", fun _ => Except.error "boom"⟩

/-! Claim theorems. -/

/-- C1: chart-widget discovery visits every block at arbitrary nesting
depth — inside list items, inside table cells, and inside sub-block
sequences of other blocks — so every widget block with a truthy widget id
whose type tag starts with `chart.js` is found and passed to the
vectorizer (it appears in the converter call log). -/
theorem chart_discovery_finds_nested_widgets
    (conv : Block → Option String) (doc : Document) (b : Block)
    (hocc : OccursInDoc b doc) (hcw : isChartWidgetB b = true) :
    b ∈ (convertChartsToSvg (some conv) doc).visited := by
  rw [convertChartsToSvg_eq]
  exact cwDocL_complete hocc hcw

/-- Witness for C1: the chart nested table → cell → list → widget is
found and passed to the vectorizer. -/
theorem chart_discovery_finds_nested_widgets_witness :
    wChart ∈ (convertChartsToSvg (some sampleConv) sampleDocNested).visited := by
  refine chart_discovery_finds_nested_widgets sampleConv sampleDocNested wChart
    ⟨⟨[wTable]⟩, by simp [sampleDocNested], ?_⟩ (by decide)
  show OccursIn wChart [wTable]
  exact @OccursIn.inCell wChart wTable [wTable] [[wList]] [wList]
    (List.mem_singleton_self wTable) rfl (List.mem_singleton_self _)
    (List.mem_singleton_self _)
    (@OccursIn.inItem wChart wList [wList] [wChart]
      (List.mem_singleton_self wList) rfl (List.mem_singleton_self _)
      (OccursIn.direct (List.mem_singleton_self wChart)))

/-- C3: font selection returns exactly one file, the highest-precedence
existing one in the fixed order full font, TrueType subset, OpenType
subset, and fails with the descriptive error exactly when all three are
absent; it coincides with the spec-side precedence definition. -/
theorem font_selection_precedence (fs : FontFS) :
    getFontPath fs = fontPrecedenceSpec fs ∧
    (getFontPath fs = Except.error fontNotFoundMsg ↔
      fs.fullOtf = false ∧ fs.subsetTtf = false ∧ fs.subsetOtf = false) ∧
    (fs.fullOtf = true → getFontPath fs = Except.ok FontFile.fullOtf) ∧
    (fs.fullOtf = false → fs.subsetTtf = true →
      getFontPath fs = Except.ok FontFile.subsetTtf) ∧
    (fs.fullOtf = false → fs.subsetTtf = false → fs.subsetOtf = true →
      getFontPath fs = Except.ok FontFile.subsetOtf) := by
  obtain ⟨f1, f2, f3⟩ := fs
  cases f1 <;> cases f2 <;> cases f3 <;>
    refine ⟨rfl, ?_, ?_, ?_, ?_⟩ <;> simp [getFontPath, fontPrecedenceSpec]

/-- Witness for C3 at one present/absent combination. -/
theorem font_selection_precedence_witness :
    getFontPath ⟨false, true, true⟩ = Except.ok FontFile.subsetTtf :=
  (font_selection_precedence ⟨false, true, true⟩).2.2.2.1 rfl rfl

/-- C7: for every document and flag value, the byte entry point and the
file entry point hand identical HTML to the same rasterizer, hence
produce identical PDF bytes (the rasterizer is modelled as a function, so
embedded generation timestamps are outside the model). -/
theorem render_entry_points_agree (env : RenderEnv) (doc : Document)
    (outputPath : String) (optimizeLayout : Bool) :
    (renderToPdf env doc outputPath optimizeLayout).result.map Prod.snd =
      (renderToBytes env doc optimizeLayout).result := by
  simp only [renderToPdf, renderToBytes]
  cases h : (getPdfHtml env doc optimizeLayout).result with
  | error e => simp [h, Except.map]
  | ok html =>
    cases hr : env.raster html with
    | ok bytes => simp [h, hr, Except.map]
    | error e => simp [h, hr, Except.map]

/-- C9: with layout optimization disabled, no optimizer analysis runs, no
log directory is created and no audit log file is written, and the
optimizer keeps its previously configured layout, whose CSS is the one
embedded in the produced HTML. -/
theorem no_optimization_skips_audit_and_reuses_config
    (env : RenderEnv) (doc : Document) :
    (getPdfHtml env doc false).optimizer = env.optimizer ∧
    Event.optimizeForDocument ∉ (getPdfHtml env doc false).events ∧
    Event.analyzeDocument ∉ (getPdfHtml env doc false).events ∧
    Event.mkdirLogs ∉ (getPdfHtml env doc false).events ∧
    Event.saveConfigLog ∉ (getPdfHtml env doc false).events ∧
    (∀ f, getFontPath env.fonts = Except.ok f →
      (getPdfHtml env doc false).result = Except.ok
        (insertStyleBeforeHeadClose
          (if ((convertChartsToSvg env.converter doc).svgMap).isEmpty then
            env.renderHtml doc
          else injectSvgIntoHtml (env.renderHtml doc)
            (convertChartsToSvg env.converter doc).svgMap)
          (fontFormatOf f) (env.fontData f)
          (env.optimizer.generateCss env.optimizer.config))) := by
  unfold getPdfHtml
  simp only [Bool.false_eq_true, if_false]
  cases hf : getFontPath env.fonts with
  | error e =>
    refine ⟨rfl, ?_, ?_, ?_, ?_, ?_⟩ <;>
      first
      | (intro f hff; exact Except.noConfusion hff)
      | (by_cases hm : ((convertChartsToSvg env.converter doc).svgMap).isEmpty = true <;>
          simp [hm])
  | ok f =>
    refine ⟨rfl, ?_, ?_, ?_, ?_, ?_⟩
    · by_cases hm : ((convertChartsToSvg env.converter doc).svgMap).isEmpty = true <;>
        simp [hm]
    · by_cases hm : ((convertChartsToSvg env.converter doc).svgMap).isEmpty = true <;>
        simp [hm]
    · by_cases hm : ((convertChartsToSvg env.converter doc).svgMap).isEmpty = true <;>
        simp [hm]
    · by_cases hm : ((convertChartsToSvg env.converter doc).svgMap).isEmpty = true <;>
        simp [hm]
    · intro g hfg
      cases hfg
      by_cases hm : ((convertChartsToSvg env.converter doc).svgMap).isEmpty = true <;>
        simp [hm]

/-- Witness for C9 at a concrete environment and document. -/
theorem no_optimization_skips_audit_and_reuses_config_witness :
    (getPdfHtml sampleEnv sampleDocEmpty false).optimizer = sampleEnv.optimizer ∧
    Event.optimizeForDocument ∉ (getPdfHtml sampleEnv sampleDocEmpty false).events ∧
    Event.analyzeDocument ∉ (getPdfHtml sampleEnv sampleDocEmpty false).events ∧
    Event.mkdirLogs ∉ (getPdfHtml sampleEnv sampleDocEmpty false).events ∧
    Event.saveConfigLog ∉ (getPdfHtml sampleEnv sampleDocEmpty false).events := by
  obtain ⟨h1, h2, h3, h4, h5, _⟩ :=
    no_optimization_skips_audit_and_reuses_config sampleEnv sampleDocEmpty
  exact ⟨h1, h2, h3, h4, h5⟩

/-- C8: with zero chart widgets in the document, the vector map is empty
and the patch step is the identity on any HTML; the pipeline skips the
injection step entirely. -/
theorem no_charts_patch_identity (env : RenderEnv) (doc : Document)
    (html : List HNode) (flag : Bool)
    (hno : ∀ b, OccursInDoc b doc → isChartWidgetB b = false) :
    (convertChartsToSvg env.converter doc).svgMap = [] ∧
    injectSvgIntoHtml html (convertChartsToSvg env.converter doc).svgMap = html ∧
    Event.injectSvgStep ∉ (getPdfHtml env doc flag).events := by
  have hcw : cwDocL doc = [] := by
    rw [List.eq_nil_iff_forall_not_mem]
    intro x hx
    obtain ⟨hocc, hcwx⟩ := cwDocL_sound hx
    rw [hno x hocc] at hcwx
    cases hcwx
  have h1 : (convertChartsToSvg env.converter doc).svgMap = [] := by
    cases hc : env.converter with
    | none => rfl
    | some conv =>
      rw [convertChartsToSvg_eq, hcw]
      rfl
  refine ⟨h1, ?_, ?_⟩
  · rw [h1]
    rfl
  · unfold getPdfHtml
    simp only [h1, List.isEmpty_nil, if_true]
    cases hf : getFontPath env.fonts with
    | error e => cases flag <;> simp
    | ok f => cases flag <;> simp

/-- Witness for C8 at a concrete chart-free document. -/
theorem no_charts_patch_identity_witness :
    (convertChartsToSvg sampleEnv.converter sampleDocEmpty).svgMap = [] ∧
    injectSvgIntoHtml [HNode.headClose]
      (convertChartsToSvg sampleEnv.converter sampleDocEmpty).svgMap =
        [HNode.headClose] ∧
    Event.injectSvgStep ∉ (getPdfHtml sampleEnv sampleDocEmpty true).events :=
  no_charts_patch_identity sampleEnv sampleDocEmpty [HNode.headClose] true
    (fun _ hocc => by
      obtain ⟨ch, hch, _⟩ := hocc
      cases hch)

/-- C2 counterexample: with all three fonts absent, the render does raise
the file-not-found error, but only after base HTML generation has already
happened — the trace of the failing call contains the HTML-renderer
event, refuting "before any HTML generation occurs". -/
theorem font_missing_error_after_html_counterexample :
    (renderToPdf sampleEnvNoFont sampleDocEmpty "out.pdf" true).result
      = Except.error fontNotFoundMsg ∧
    Event.renderBaseHtml ∈
      (renderToPdf sampleEnvNoFont sampleDocEmpty "out.pdf" true).events := by
  refine ⟨rfl, ?_⟩
  decide

/-- C2 amended: if none of the three font files exists, every render call
(render_to_pdf and render_to_bytes) raises the file-not-found error and
produces no PDF (the rasterizer is never invoked); the error surfaces
during HTML assembly, after base HTML generation, not before it. -/
theorem font_missing_fatal_during_html_assembly
    (env : RenderEnv) (doc : Document) (path : String) (flag : Bool)
    (hf : env.fonts = ⟨false, false, false⟩) :
    (renderToPdf env doc path flag).result = Except.error fontNotFoundMsg ∧
    Event.rasterize ∉ (renderToPdf env doc path flag).events ∧
    Event.renderBaseHtml ∈ (renderToPdf env doc path flag).events ∧
    (renderToBytes env doc flag).result = Except.error fontNotFoundMsg ∧
    Event.rasterize ∉ (renderToBytes env doc flag).events ∧
    Event.renderBaseHtml ∈ (renderToBytes env doc flag).events := by
  have hfp : getFontPath env.fonts = Except.error fontNotFoundMsg := by
    rw [hf]
    rfl
  unfold renderToPdf renderToBytes getPdfHtml
  simp only [hfp]
  by_cases hm : ((convertChartsToSvg env.converter doc).svgMap).isEmpty = true <;>
    cases flag <;> simp [hm]

/-- Witness for the amended C2 at a concrete environment. -/
theorem font_missing_fatal_during_html_assembly_witness :
    (renderToBytes sampleEnvNoFont sampleDocEmpty true).result
      = Except.error fontNotFoundMsg ∧
    Event.rasterize ∉ (renderToBytes sampleEnvNoFont sampleDocEmpty true).events := by
  obtain ⟨_, _, _, h4, h5, _⟩ :=
    font_missing_fatal_during_html_assembly sampleEnvNoFont sampleDocEmpty
      "out.pdf" true rfl
  exact ⟨h4, h5⟩

/-- Is an event an error-log entry? -/
def isLogErrorEvent : Event → Bool
  | Event.logError _ => true
  | _ => false

/-- C6 counterexample: a failing rasterization in render_to_bytes is
re-raised unchanged but NOT logged — the failing call's trace contains no
error-log event, refuting "for both public entry points ... logged". -/
theorem raster_failure_unlogged_in_bytes_counterexample :
    (renderToBytes sampleEnvRasterFail sampleDocEmpty true).result
      = Except.error "boom" ∧
    (renderToBytes sampleEnvRasterFail sampleDocEmpty true).events.countP
      isLogErrorEvent = 0 ∧
    Event.rasterize ∈ (renderToBytes sampleEnvRasterFail sampleDocEmpty true).events := by
  refine ⟨rfl, ?_, ?_⟩ <;> decide

theorem getPdfHtml_no_raster_events (env : RenderEnv) (doc : Document) (flag : Bool) :
    (getPdfHtml env doc flag).events.count Event.rasterize = 0 ∧
    (getPdfHtml env doc flag).events.countP isLogErrorEvent = 0 := by
  unfold getPdfHtml
  by_cases hm : ((convertChartsToSvg env.converter doc).svgMap).isEmpty = true <;>
    cases flag <;> cases hf : getFontPath env.fonts <;>
      simp [hm, hf] <;> decide

/-- C6 amended: a rasterization failure is propagated unchanged to the
caller by both entry points, with the rasterizer invoked exactly once (no
retry) and nothing executed afterwards (no partial output); render_to_pdf
additionally logs the error first, while render_to_bytes propagates it
without logging. -/
theorem raster_failure_propagation
    (env : RenderEnv) (doc : Document) (path : String) (flag : Bool)
    (html : List HNode) (e : String)
    (hok : (getPdfHtml env doc flag).result = Except.ok html)
    (hfail : env.raster html = Except.error e) :
    (renderToPdf env doc path flag).result = Except.error e ∧
    (renderToPdf env doc path flag).events =
      (getPdfHtml env doc flag).events ++ [Event.rasterize, Event.logError e] ∧
    (renderToPdf env doc path flag).events.count Event.rasterize = 1 ∧
    (renderToPdf env doc path flag).events.countP isLogErrorEvent = 1 ∧
    (renderToBytes env doc flag).result = Except.error e ∧
    (renderToBytes env doc flag).events =
      (getPdfHtml env doc flag).events ++ [Event.rasterize] ∧
    (renderToBytes env doc flag).events.count Event.rasterize = 1 ∧
    (renderToBytes env doc flag).events.countP isLogErrorEvent = 0 := by
  obtain ⟨hc1, hc2⟩ := getPdfHtml_no_raster_events env doc flag
  unfold renderToPdf renderToBytes
  simp [hok, hfail, List.count_append, List.countP_append, hc1, hc2, isLogErrorEvent,
    List.count_cons, List.count_nil, List.countP_cons]

/-- Witness for the amended C6 at a concrete environment. -/
theorem raster_failure_propagation_witness :
    (renderToPdf sampleEnvRasterFail sampleDocEmpty "out.pdf" true).result
      = Except.error "boom" ∧
    (renderToPdf sampleEnvRasterFail sampleDocEmpty "out.pdf" true).events.countP
      isLogErrorEvent = 1 := by
  obtain ⟨h1, _, _, h4, _⟩ :=
    raster_failure_propagation sampleEnvRasterFail sampleDocEmpty "out.pdf" true
      [HNode.text "body",
        HNode.styleBlock "opentype" "FONTDATA" "bodycss",
        HNode.headClose]
      "boom" rfl rfl
  exact ⟨h1, h4⟩

theorem widgetEntry_eq_some {conv : Block → Option String} {b : Block}
    {p : String × String} (h : widgetEntry conv b = some p) :
    b.widgetId = some p.1 ∧ convResult conv b = some p.2 := by
  unfold widgetEntry at h
  cases hid : b.widgetId with
  | none => rw [hid] at h; cases h
  | some w =>
    rw [hid] at h
    cases hc : convResult conv b with
    | none => rw [hc] at h; cases h
    | some svg =>
      rw [hc] at h
      cases h
      exact ⟨rfl, rfl⟩

theorem mem_dictInsert {m : List (String × String)} {k v : String}
    {q : String × String} (h : q ∈ dictInsert m k v) : q ∈ m ∨ q = (k, v) := by
  rw [dictInsert_eq] at h
  by_cases ha : m.any (fun p => p.1 == k) = true
  · rw [if_pos ha] at h
    obtain ⟨p, hp, hpq⟩ := List.mem_map.mp h
    unfold replaceK at hpq
    by_cases hpk : (p.1 == k) = true
    · rw [if_pos hpk] at hpq
      exact Or.inr hpq.symm
    · rw [if_neg hpk] at hpq
      exact Or.inl (hpq ▸ hp)
  · rw [if_neg ha] at h
    rcases List.mem_append.mp h with h | h
    · exact Or.inl h
    · rw [List.mem_singleton] at h
      exact Or.inr h

theorem mem_foldIns {m : List (String × String)} {l : List (String × String)}
    {q : String × String} (h : q ∈ foldIns m l) : q ∈ m ∨ q ∈ l := by
  induction l generalizing m with
  | nil => exact Or.inl h
  | cons p rest ih =>
    have h' : q ∈ foldIns (dictInsert m p.1 p.2) rest := h
    rcases ih h' with h1 | h1
    · rcases mem_dictInsert h1 with h2 | h2
      · exact Or.inl h2
      · exact Or.inr (h2 ▸ List.mem_cons_self p rest)
    · exact Or.inr (List.mem_cons_of_mem p h1)

theorem find?_key_eq_filter {l : List (String × String)} {k wid : String}
    (hk : k ≠ wid) :
    l.find? (fun p => p.1 == k) =
      (l.filter (fun p => p.1 != wid)).find? (fun p => p.1 == k) := by
  induction l with
  | nil => rfl
  | cons p rest ih =>
    by_cases hpw : (p.1 != wid) = true
    · rw [List.filter_cons, if_pos hpw, List.find?_cons, List.find?_cons]
      cases hpk : (p.1 == k) with
      | true => rfl
      | false => exact ih
    · rw [List.filter_cons, if_neg hpw]
      have hp1 : p.1 = wid := by
        rw [Bool.not_eq_true] at hpw
        rw [bne_eq_false_iff_eq] at hpw
        exact hpw
      have hpk : (p.1 == k) = false := by
        rw [beq_eq_false_iff_ne, hp1]
        exact fun hc => hk hc.symm
      rw [List.find?_cons, hpk]
      exact ih

theorem successes_filter_congr {conv conv' : Block → Option String} {wid : String}
    (hcc : ∀ b, b.widgetId ≠ some wid → conv' b = conv b) (ws : List Block) :
    (successes conv' ws).filter (fun p => p.1 != wid) =
      (successes conv ws).filter (fun p => p.1 != wid) := by
  induction ws with
  | nil => rfl
  | cons b rest ih =>
    unfold successes at ih ⊢
    cases hid : b.widgetId with
    | none =>
      have h1 : widgetEntry conv' b = none := by
        unfold widgetEntry
        rw [hid]
      have h2 : widgetEntry conv b = none := by
        unfold widgetEntry
        rw [hid]
      rw [List.filterMap_cons, List.filterMap_cons, h1, h2]
      exact ih
    | some w =>
      by_cases hw : w = wid
      · rw [hw] at hid
        have key_elim : ∀ (cf : Block → Option String),
            List.filter (fun p : String × String => p.1 != wid)
              (List.filterMap (widgetEntry cf) (b :: rest)) =
            List.filter (fun p : String × String => p.1 != wid)
              (List.filterMap (widgetEntry cf) rest) := by
          intro cf
          rw [List.filterMap_cons]
          cases h1 : widgetEntry cf b with
          | none => rfl
          | some q =>
            have hq := (widgetEntry_eq_some h1).1
            rw [hid] at hq
            have hq1 : q.1 = wid := by
              injection hq with h
              exact h.symm
            rw [List.filter_cons, if_neg ?_]
            rw [Bool.not_eq_true, bne_eq_false_iff_eq]
            exact hq1
        rw [key_elim conv', key_elim conv]
        exact ih
      · have hconv : conv' b = conv b := by
          apply hcc
          rw [hid]
          intro hc
          injection hc with hc'
          exact hw hc'
        have hent : widgetEntry conv' b = widgetEntry conv b := by
          unfold widgetEntry convResult
          rw [hconv]
        rw [List.filterMap_cons, List.filterMap_cons, hent]
        cases h2 : widgetEntry conv b with
        | none => exact ih
        | some q =>
          rw [List.filter_cons, List.filter_cons]
          by_cases hq : (q.1 != wid) = true
          · rw [if_pos hq, if_pos hq, ih]
          · rw [if_neg hq, if_neg hq, ih]

/-! Log-instrumented extraction.  `_extract_and_convert_widgets` calls the
logger at three sites: `logger.debug` after a successful conversion (line
148), `logger.warning` on an empty result (line 150) and `logger.error`
on an exception (line 152); `_convert_charts_to_svg` additionally warns
when no converter is available (line 102) and reports the conversion
count (line 111).  The same recursion is embedded once more with these
logger calls recorded, and proved to compute exactly the state of the
plain traversal. -/

/-- One converter-stage log record. -/
inductive ConvLogEntry : Type where
  | svgDone (widgetId : String)
  | svgFailed (widgetId : String)
  | convError (widgetId : String)
  | converterMissing
  | convertedCount (n : Nat)
deriving DecidableEq

/-- The log records one widget block produces when processed. -/
def logOfWidget (conv : Block → Option String) (b : Block) : List ConvLogEntry :=
  match b.widgetId with
  | some wid =>
    (match conv b with
     | some svg =>
       if svg != "" then [ConvLogEntry.svgDone wid] else [ConvLogEntry.svgFailed wid]
     | none => [ConvLogEntry.convError wid])
  | none => []

/-- The log records of a widget list, in processing order. -/
def chartLog (conv : Block → Option String) (ws : List Block) : List ConvLogEntry :=
  ws.flatMap (logOfWidget conv)

/-- The widget branch with its logger calls recorded. -/
def processWidgetL (conv : Block → Option String) (b : Block)
    (r : ExtractState × List ConvLogEntry) : ExtractState × List ConvLogEntry :=
  if b.btype == "widget" then
    match b.widgetId with
    | some wid =>
      if wid != "" && strStartsWith b.widgetType "chart.js" then
        let st' : ExtractState := ⟨r.1.svgMap, r.1.visited ++ [b]⟩
        match conv b with
        | some svg =>
          if svg != "" then
            (⟨dictInsert st'.svgMap wid svg, st'.visited⟩,
              r.2 ++ [ConvLogEntry.svgDone wid])
          else (st', r.2 ++ [ConvLogEntry.svgFailed wid])
        | none => (st', r.2 ++ [ConvLogEntry.convError wid])
      else r
    | none => r
  else r

mutual

/-- `_extract_and_convert_widgets` with the logger calls recorded. -/
def extractBlocksL (conv : Block → Option String) :
    List Block → ExtractState × List ConvLogEntry → ExtractState × List ConvLogEntry
  | [], r => r
  | b :: rest, r => extractBlocksL conv rest (extractBlockL conv b r)

/-- One block of the log-recording traversal. -/
def extractBlockL (conv : Block → Option String) :
    Block → ExtractState × List ConvLogEntry → ExtractState × List ConvLogEntry
  | Block.mk t wid wt sub items rows, r =>
    let r1 := processWidgetL conv (Block.mk t wid wt sub items rows) r
    let r2 := match sub with
      | some nested => extractBlocksL conv nested r1
      | none => r1
    let r3 := if t == "list" then extractItemsL conv items r2 else r2
    if t == "table" then extractRowsL conv rows r3 else r3

/-- The items loop of the log-recording traversal. -/
def extractItemsL (conv : Block → Option String) :
    List (List Block) → ExtractState × List ConvLogEntry → ExtractState × List ConvLogEntry
  | [], r => r
  | item :: rest, r => extractItemsL conv rest (extractBlocksL conv item r)

/-- The rows loop of the log-recording traversal. -/
def extractRowsL (conv : Block → Option String) :
    List (List (List Block)) → ExtractState × List ConvLogEntry →
      ExtractState × List ConvLogEntry
  | [], r => r
  | row :: rest, r => extractRowsL conv rest (extractCellsL conv row r)

/-- The cells loop of the log-recording traversal. -/
def extractCellsL (conv : Block → Option String) :
    List (List Block) → ExtractState × List ConvLogEntry → ExtractState × List ConvLogEntry
  | [], r => r
  | cell :: rest, r => extractCellsL conv rest (extractBlocksL conv cell r)

end

/-- `_convert_charts_to_svg` with the logger calls recorded: the warning
on a missing converter, the per-widget records of the traversal, and the
final conversion count. -/
def convertChartsToSvgL (converter : Option (Block → Option String)) (doc : Document) :
    ExtractState × List ConvLogEntry :=
  match converter with
  | none => (⟨[], []⟩, [ConvLogEntry.converterMissing])
  | some conv =>
    let r := doc.chapters.foldl
      (fun acc ch => extractBlocksL conv ch.blocks acc) (⟨[], []⟩, [])
    (r.1, r.2 ++ [ConvLogEntry.convertedCount r.1.svgMap.length])

theorem chartLog_append (conv : Block → Option String) (ws₁ ws₂ : List Block) :
    chartLog conv (ws₁ ++ ws₂) = chartLog conv ws₁ ++ chartLog conv ws₂ := by
  unfold chartLog
  rw [List.flatMap_append]

theorem processWidgetL_eq (conv : Block → Option String) (b : Block)
    (st : ExtractState) (ev : List ConvLogEntry) :
    processWidgetL conv b (st, ev) =
      (processWidget conv b st,
        ev ++ chartLog conv (if isChartWidgetB b then [b] else [])) := by
  cases b with
  | mk t wid wt sub items rows =>
    simp only [processWidgetL, processWidget, isChartWidgetB, chartLog, logOfWidget,
      Block.btype, Block.widgetId, Block.widgetType]
    cases hw : wid with
    | none => simp
    | some w =>
      by_cases ht : (t == "widget") = true
      · simp only [ht, if_true]
        by_cases hg : (w != "" && strStartsWith wt "chart.js") = true
        · simp only [hg, if_true]
          cases hc : conv (Block.mk t (some w) wt sub items rows) with
          | none => simp [hc, logOfWidget, Block.widgetId]
          | some svg =>
            by_cases hs : (svg != "") = true
            · simp [hc, hs, logOfWidget, Block.widgetId]
            · simp [hc, hs, logOfWidget, Block.widgetId]
        · simp [hg]
      · simp [ht]

mutual

/-- The log-recording traversal computes the plain traversal's state and
appends exactly the widget log of the visited chart widgets. -/
theorem extractBlocksL_eq (conv : Block → Option String) (bs : List Block)
    (st : ExtractState) (ev : List ConvLogEntry) :
    extractBlocksL conv bs (st, ev) =
      (extractBlocks conv bs st, ev ++ chartLog conv (cwBlocks bs)) := by
  match bs with
  | [] =>
    rw [extractBlocksL, extractBlocks, cwBlocks]
    simp [chartLog]
  | b :: rest =>
    rw [extractBlocksL, extractBlocks, cwBlocks]
    rw [extractBlockL_eq conv b st ev]
    rw [extractBlocksL_eq conv rest (extractBlock conv b st)
      (ev ++ chartLog conv (cwBlock b))]
    rw [chartLog_append]
    simp [List.append_assoc]

/-- One block of the log-recording traversal, characterized. -/
theorem extractBlockL_eq (conv : Block → Option String) (b : Block)
    (st : ExtractState) (ev : List ConvLogEntry) :
    extractBlockL conv b (st, ev) =
      (extractBlock conv b st, ev ++ chartLog conv (cwBlock b)) := by
  match b with
  | Block.mk t wid wt sub items rows =>
    have hpw := fun (s : ExtractState) (e : List ConvLogEntry) =>
      processWidgetL_eq conv (Block.mk t wid wt sub items rows) s e
    cases sub with
    | some nested =>
      have hn := fun (s : ExtractState) (e : List ConvLogEntry) =>
        extractBlocksL_eq conv nested s e
      have hits := fun (s : ExtractState) (e : List ConvLogEntry) =>
        extractItemsL_eq conv items s e
      have hrows := fun (s : ExtractState) (e : List ConvLogEntry) =>
        extractRowsL_eq conv rows s e
      by_cases hl : (t == "list") = true <;> by_cases htb : (t == "table") = true <;>
        simp [extractBlockL.eq_def, extractBlock.eq_def, cwBlock.eq_def,
          hpw, hn, hits, hrows, hl, htb, chartLog_append, List.append_assoc]
    | none =>
      have hits := fun (s : ExtractState) (e : List ConvLogEntry) =>
        extractItemsL_eq conv items s e
      have hrows := fun (s : ExtractState) (e : List ConvLogEntry) =>
        extractRowsL_eq conv rows s e
      by_cases hl : (t == "list") = true <;> by_cases htb : (t == "table") = true <;>
        simp [extractBlockL.eq_def, extractBlock.eq_def, cwBlock.eq_def,
          hpw, hits, hrows, hl, htb, chartLog_append, List.append_assoc, chartLog]

/-- The items loop of the log-recording traversal, characterized. -/
theorem extractItemsL_eq (conv : Block → Option String) (items : List (List Block))
    (st : ExtractState) (ev : List ConvLogEntry) :
    extractItemsL conv items (st, ev) =
      (extractItems conv items st, ev ++ chartLog conv (cwItems items)) := by
  match items with
  | [] =>
    rw [extractItemsL, extractItems, cwItems]
    simp [chartLog]
  | item :: rest =>
    rw [extractItemsL, extractItems, cwItems]
    rw [extractBlocksL_eq conv item st ev]
    rw [extractItemsL_eq conv rest (extractBlocks conv item st)
      (ev ++ chartLog conv (cwBlocks item))]
    rw [chartLog_append]
    simp [List.append_assoc]

/-- The rows loop of the log-recording traversal, characterized. -/
theorem extractRowsL_eq (conv : Block → Option String)
    (rows : List (List (List Block))) (st : ExtractState) (ev : List ConvLogEntry) :
    extractRowsL conv rows (st, ev) =
      (extractRows conv rows st, ev ++ chartLog conv (cwRows rows)) := by
  match rows with
  | [] =>
    rw [extractRowsL, extractRows, cwRows]
    simp [chartLog]
  | row :: rest =>
    rw [extractRowsL, extractRows, cwRows]
    rw [extractCellsL_eq conv row st ev]
    rw [extractRowsL_eq conv rest (extractCells conv row st)
      (ev ++ chartLog conv (cwCells row))]
    rw [chartLog_append]
    simp [List.append_assoc]

/-- The cells loop of the log-recording traversal, characterized. -/
theorem extractCellsL_eq (conv : Block → Option String) (cells : List (List Block))
    (st : ExtractState) (ev : List ConvLogEntry) :
    extractCellsL conv cells (st, ev) =
      (extractCells conv cells st, ev ++ chartLog conv (cwCells cells)) := by
  match cells with
  | [] =>
    rw [extractCellsL, extractCells, cwCells]
    simp [chartLog]
  | cell :: rest =>
    rw [extractCellsL, extractCells, cwCells]
    rw [extractBlocksL_eq conv cell st ev]
    rw [extractCellsL_eq conv rest (extractBlocks conv cell st)
      (ev ++ chartLog conv (cwBlocks cell))]
    rw [chartLog_append]
    simp [List.append_assoc]

end

theorem convertChartsLoopL_eq (conv : Block → Option String) (chs : List Chapter)
    (st : ExtractState) (ev : List ConvLogEntry) :
    chs.foldl (fun acc ch => extractBlocksL conv ch.blocks acc) (st, ev) =
      (chs.foldl (fun s ch => extractBlocks conv ch.blocks s) st,
        ev ++ chartLog conv (chs.flatMap fun ch => cwBlocks ch.blocks)) := by
  induction chs generalizing st ev with
  | nil => simp [chartLog]
  | cons ch rest ih =>
    simp only [List.foldl_cons]
    rw [extractBlocksL_eq conv ch.blocks st ev]
    rw [ih]
    simp [List.flatMap_cons, chartLog_append, List.append_assoc]

/-- The log-recording `_convert_charts_to_svg` computes the plain
extraction state and the widget log of the whole document followed by the
conversion-count record. -/
theorem convertChartsToSvgL_eq (conv : Block → Option String) (doc : Document) :
    convertChartsToSvgL (some conv) doc =
      (convertChartsToSvg (some conv) doc,
        chartLog conv (cwDocL doc) ++
          [ConvLogEntry.convertedCount
            (convertChartsToSvg (some conv) doc).svgMap.length]) := by
  unfold convertChartsToSvgL convertChartsToSvg
  dsimp only
  rw [convertChartsLoopL_eq]
  rw [show (doc.chapters.flatMap fun ch => cwBlocks ch.blocks) = cwDocL doc from rfl]
  simp

/-- A converter whose every call raises. -/
def failConv : Block → Option String := fun _ => none

/-- The sample environment with the always-raising converter installed. -/
def sampleEnvFailConv : RenderEnv :=
  ⟨sampleOptimizer, some failConv, fun _ => [HNode.text "body", HNode.headClose],
    ⟨true, false, false⟩, fun _ => "FONTDATA", fun _ => Except.ok [37, 80, 68, 70]⟩

/-- Base HTML holding the config script, placeholder and fallback markup
of the widget `w1`. -/
def sampleHtmlC4 : List HNode :=
  [HNode.configScript "cfg1" "w1", HNode.canvas "cfg1", HNode.text "fallback table"]

theorem sampleHtmlC4_uniq :
    ∀ w, findConfigScript sampleHtmlC4 w = some "cfg1" → w = "w1" := by
  intro w hw
  by_cases h : "w1" = w
  · exact h.symm
  · exfalso
    unfold sampleHtmlC4 at hw
    rw [findConfigScript, if_neg h, findConfigScript, findConfigScript,
      findConfigScript] at hw
    cases hw

theorem patchFun_ne_canvas (html : List HNode) (m : List (String × String))
    (n : HNode) (h : ∀ c, n ≠ HNode.canvas c) : patchFun html m n = n := by
  cases n with
  | canvas c => exact absurd rfl (h c)
  | configScript e wi => rfl
  | svgContainer x => rfl
  | styleBlock a b c => rfl
  | headClose => rfl
  | text x => rfl

theorem getPdfHtml_ok_of_font (env : RenderEnv) (doc : Document) (flag : Bool)
    (hfont : env.fonts.fullOtf = true) :
    ∃ html, (getPdfHtml env doc flag).result = Except.ok html := by
  have hfp : getFontPath env.fonts = Except.ok FontFile.fullOtf := by
    unfold getFontPath
    rw [if_pos hfont]
  unfold getPdfHtml
  simp only [hfp]
  exact ⟨_, rfl⟩

theorem renderToBytes_ok (env : RenderEnv) (doc : Document) (flag : Bool)
    (hfont : env.fonts.fullOtf = true)
    (hrast : ∀ h, (env.raster h).isOk = true) :
    (renderToBytes env doc flag).result.isOk = true := by
  obtain ⟨html, hok⟩ := getPdfHtml_ok_of_font env doc flag hfont
  unfold renderToBytes
  simp only [hok]
  cases hr : env.raster html with
  | ok bytes => rfl
  | error e =>
    have hh := hrast html
    rw [hr] at hh
    cases hh

/-- C4: a chart widget whose vectorization raises or returns an empty
result never aborts the render: the call still succeeds, the failure is
logged (an error record for an exception, a warning record for an empty
result), the widget id is omitted from the vector map, no other widget
id's map entry changes, and the patch step leaves the widget's
placeholder (and every non-canvas node, in particular its fallback
markup) untouched. -/
theorem failed_widget_vectorization_tolerated
    (env : RenderEnv) (conv : Block → Option String) (doc : Document)
    (wid : String) (html : List HNode) (cid : String) (flag : Bool) (b₀ : Block)
    (hconv : env.converter = some conv)
    (hbocc : OccursInDoc b₀ doc) (hbcw : isChartWidgetB b₀ = true)
    (hbid0 : b₀.widgetId = some wid)
    (hfail : ∀ b, OccursInDoc b doc → b.widgetId = some wid →
      convResult conv b = none)
    (hfont : env.fonts.fullOtf = true)
    (hrast : ∀ h, (env.raster h).isOk = true)
    (huniq : ∀ w, findConfigScript html w = some cid → w = wid) :
    (renderToBytes env doc flag).result.isOk = true ∧
    wid ∉ keys (convertChartsToSvg env.converter doc).svgMap ∧
    (∀ (conv' : Block → Option String),
      (∀ b, b.widgetId ≠ some wid → conv' b = conv b) →
      ∀ k, k ≠ wid →
        lookupD (convertChartsToSvg (some conv') doc).svgMap k =
        lookupD (convertChartsToSvg (some conv) doc).svgMap k) ∧
    patchFun html (convertChartsToSvg env.converter doc).svgMap
      (HNode.canvas cid) = HNode.canvas cid ∧
    injectSvgIntoHtml html (convertChartsToSvg env.converter doc).svgMap =
      html.map (patchFun html (convertChartsToSvg env.converter doc).svgMap) ∧
    (∀ n : HNode, (∀ c, n ≠ HNode.canvas c) →
      patchFun html (convertChartsToSvg env.converter doc).svgMap n = n) ∧
    (convertChartsToSvgL (some conv) doc).1 = convertChartsToSvg (some conv) doc ∧
    ((conv b₀ = none ∧
        ConvLogEntry.convError wid ∈ (convertChartsToSvgL (some conv) doc).2) ∨
     (conv b₀ = some "" ∧
        ConvLogEntry.svgFailed wid ∈ (convertChartsToSvgL (some conv) doc).2)) := by
  have hnone : lookupD (convertChartsToSvg (some conv) doc).svgMap wid = none := by
    rw [convertChartsToSvg_eq]
    show lookupD (foldIns [] (successes conv (cwDocL doc))) wid = none
    rw [lookupD_foldIns]
    have hfind : (successes conv (cwDocL doc)).reverse.find?
        (fun p => p.1 == wid) = none := by
      rw [List.find?_eq_none]
      intro p hp hpk
      rw [List.mem_reverse] at hp
      obtain ⟨b, hb, hbe⟩ := List.mem_filterMap.mp hp
      obtain ⟨hbid, hbc⟩ := widgetEntry_eq_some hbe
      have hp1 : p.1 = wid := beq_iff_eq.mp hpk
      rw [hp1] at hbid
      obtain ⟨hocc, _⟩ := cwDocL_sound hb
      rw [hfail b hocc hbid] at hbc
      cases hbc
    rw [hfind]
    rfl
  have hkeys : wid ∉ keys (convertChartsToSvg (some conv) doc).svgMap :=
    lookupD_eq_none_iff.mp hnone
  refine ⟨renderToBytes_ok env doc flag hfont hrast, hconv ▸ hkeys, ?_, ?_, ?_, ?_, ?_, ?_⟩
  · intro conv' hcc k hk
    rw [convertChartsToSvg_eq, convertChartsToSvg_eq]
    show lookupD (foldIns [] (successes conv' (cwDocL doc))) k =
      lookupD (foldIns [] (successes conv (cwDocL doc))) k
    rw [lookupD_foldIns, lookupD_foldIns]
    have h1 := @find?_key_eq_filter ((successes conv' (cwDocL doc)).reverse) k wid hk
    have h2 := @find?_key_eq_filter ((successes conv (cwDocL doc)).reverse) k wid hk
    have hsame : (successes conv' (cwDocL doc)).reverse.find? (fun p => p.1 == k) =
        (successes conv (cwDocL doc)).reverse.find? (fun p => p.1 == k) := by
      rw [h1, h2, List.filter_reverse, List.filter_reverse,
        successes_filter_congr hcc (cwDocL doc)]
    rw [hsame]
  · rw [hconv]
    have hpred : (convertChartsToSvg (some conv) doc).svgMap.find?
        (fun p => findConfigScript html p.1 == some cid) = none := by
      rw [List.find?_eq_none]
      intro p hp hc
      have hceq : findConfigScript html p.1 = some cid := beq_iff_eq.mp hc
      have hp1 : p.1 = wid := huniq p.1 hceq
      apply hkeys
      rw [← hp1]
      exact List.mem_map.mpr ⟨p, hp, rfl⟩
    show (match (convertChartsToSvg (some conv) doc).svgMap.find?
        (fun p => findConfigScript html p.1 == some cid) with
      | some p => HNode.svgContainer (stripSvgContent p.2)
      | none => HNode.canvas cid) = HNode.canvas cid
    rw [hpred]
  · exact injectSvgIntoHtml_eq_map html _
  · intro n hn
    exact patchFun_ne_canvas html _ n hn
  · simp [convertChartsToSvgL_eq]
  · have hb0mem : b₀ ∈ cwDocL doc := cwDocL_complete hbocc hbcw
    have hlogmem : ∀ entry ∈ logOfWidget conv b₀,
        entry ∈ (convertChartsToSvgL (some conv) doc).2 := by
      intro entry he
      rw [convertChartsToSvgL_eq]
      apply List.mem_append_left
      unfold chartLog
      exact List.mem_flatMap.mpr ⟨b₀, hb0mem, he⟩
    have hcr := hfail b₀ hbocc hbid0
    unfold convResult at hcr
    cases hcb : conv b₀ with
    | none =>
      left
      refine ⟨rfl, hlogmem _ ?_⟩
      unfold logOfWidget
      rw [hbid0, hcb]
      exact List.mem_singleton_self _
    | some svg =>
      rw [hcb] at hcr
      dsimp only at hcr
      by_cases hs : (svg != "") = true
      · rw [if_pos hs] at hcr
        cases hcr
      · have hsvg : svg = "" := by
          rw [Bool.not_eq_true, bne_eq_false_iff_eq] at hs
          exact hs
        subst hsvg
        right
        refine ⟨rfl, hlogmem _ ?_⟩
        unfold logOfWidget
        rw [hbid0, hcb]
        simp

/-- Witness for C4: a document whose single chart widget's conversion
raises, nested table → cell → list → widget, rendered in an environment
with working fonts and rasterizer; the converter error is logged. -/
theorem failed_widget_vectorization_tolerated_witness :
    (renderToBytes sampleEnvFailConv sampleDocNested true).result.isOk = true ∧
    "w1" ∉ keys (convertChartsToSvg sampleEnvFailConv.converter sampleDocNested).svgMap ∧
    patchFun sampleHtmlC4
      (convertChartsToSvg sampleEnvFailConv.converter sampleDocNested).svgMap
      (HNode.canvas "cfg1") = HNode.canvas "cfg1" ∧
    ConvLogEntry.convError "w1" ∈
      (convertChartsToSvgL (some failConv) sampleDocNested).2 := by
  obtain ⟨h1, h2, _, h4, _, _, _, h8⟩ :=
    failed_widget_vectorization_tolerated sampleEnvFailConv failConv sampleDocNested
      "w1" sampleHtmlC4 "cfg1" true wChart rfl
      ⟨⟨[wTable]⟩, List.mem_singleton_self _,
        @OccursIn.inCell wChart wTable [wTable] [[wList]] [wList]
          (List.mem_singleton_self wTable) rfl (List.mem_singleton_self _)
          (List.mem_singleton_self _)
          (@OccursIn.inItem wChart wList [wList] [wChart]
            (List.mem_singleton_self wList) rfl (List.mem_singleton_self _)
            (OccursIn.direct (List.mem_singleton_self wChart)))⟩
      (by decide) rfl
      (fun b _ _ => rfl) rfl (fun _ => rfl) sampleHtmlC4_uniq
  refine ⟨h1, h2, h4, ?_⟩
  rcases h8 with ⟨_, hm⟩ | ⟨hcontra, _⟩
  · exact hm
  · exact Option.noConfusion hcontra

theorem keys_dictInsert_of_mem {m : List (String × String)} {k v : String}
    (h : (m.any fun p => p.1 == k) = true) : keys (dictInsert m k v) = keys m := by
  rw [dictInsert_eq, if_pos h]
  unfold keys
  rw [List.map_map]
  apply List.map_congr_left
  intro p _
  show (replaceK k v p).1 = p.1
  unfold replaceK
  by_cases hpk : (p.1 == k) = true
  · rw [if_pos hpk]
    exact (beq_iff_eq.mp hpk).symm
  · rw [if_neg hpk]

theorem keys_dictInsert_nodup {m : List (String × String)} {k v : String}
    (h : (keys m).Nodup) : (keys (dictInsert m k v)).Nodup := by
  by_cases ha : (m.any fun p => p.1 == k) = true
  · rw [keys_dictInsert_of_mem ha]
    exact h
  · rw [dictInsert_eq, if_neg ha]
    unfold keys
    rw [List.map_append]
    have hk : k ∉ keys m := by
      intro hc
      obtain ⟨p, hp, hpk⟩ := List.mem_map.mp hc
      rw [Bool.not_eq_true, List.any_eq_false] at ha
      exact ha p hp (beq_iff_eq.mpr hpk)
    simp only [List.map_cons, List.map_nil]
    rw [List.nodup_append]
    refine ⟨h, List.nodup_singleton k, ?_⟩
    intro a hamem hamem'
    rw [List.mem_singleton] at hamem'
    subst hamem'
    exact hk hamem

theorem keys_foldIns_nodup {m : List (String × String)}
    (l : List (String × String)) (h : (keys m).Nodup) :
    (keys (foldIns m l)).Nodup := by
  induction l generalizing m with
  | nil => exact h
  | cons p rest ih =>
    show (keys (foldIns (dictInsert m p.1 p.2) rest)).Nodup
    exact ih (keys_dictInsert_nodup h)

theorem find?_eq_of_unique_key {m : List (String × String)} {wid svg : String}
    {pred : String × String → Bool}
    (hmem : (wid, svg) ∈ m) (hnd : (keys m).Nodup)
    (hkey : ∀ p ∈ m, pred p = true → p.1 = wid)
    (hwid : ∀ p ∈ m, p.1 = wid → pred p = true) :
    m.find? pred = some (wid, svg) := by
  induction m with
  | nil => cases hmem
  | cons p rest ih =>
    have hnd' : (keys rest).Nodup := (List.nodup_cons.mp hnd).2
    have hhead : p.1 ∉ keys rest := (List.nodup_cons.mp hnd).1
    by_cases hp : pred p = true
    · have hp1 : p.1 = wid := hkey p (List.mem_cons_self p rest) hp
      have hpe : p = (wid, svg) := by
        rcases List.mem_cons.mp hmem with h | h
        · exact h.symm
        · exfalso
          apply hhead
          rw [hp1]
          exact List.mem_map.mpr ⟨(wid, svg), h, rfl⟩
      rw [List.find?_cons, hp, hpe]
    · have hp1 : p.1 ≠ wid := fun hc => hp (hwid p (List.mem_cons_self p rest) hc)
      have hmem' : (wid, svg) ∈ rest := by
        rcases List.mem_cons.mp hmem with h | h
        · exact absurd (congrArg Prod.fst h.symm) hp1
        · exact h
      have hpb : pred p = false := by
        rw [← Bool.not_eq_true]
        exact hp
      rw [List.find?_cons, hpb]
      exact ih hmem' hnd'
        (fun q hq hqp => hkey q (List.mem_cons_of_mem p hq) hqp)
        (fun q hq hq1 => hwid q (List.mem_cons_of_mem p hq) hq1)

theorem mem_of_lookupD {m : List (String × String)} {k v : String}
    (h : lookupD m k = some v) : (k, v) ∈ m := by
  unfold lookupD at h
  cases hf : m.find? (fun p => p.1 == k) with
  | none => rw [hf] at h; cases h
  | some p =>
    rw [hf] at h
    have hp1 : p.1 = k :=
      beq_iff_eq.mp (List.find?_some (p := fun q : String × String => q.1 == k) hf)
    have hp2 : p.2 = v := by
      injection h
    have hpm : p ∈ m := List.mem_of_find?_eq_some hf
    have : p = (k, v) := by
      cases p
      simp only at hp1 hp2
      rw [hp1, hp2]
    exact this ▸ hpm

theorem count_insertStyleBeforeHeadClose (html : List HNode)
    (f d c : String) (x : HNode)
    (hx1 : x ≠ HNode.headClose)
    (hx2 : ∀ a b c', x ≠ HNode.styleBlock a b c') :
    (insertStyleBeforeHeadClose html f d c).count x = html.count x := by
  induction html with
  | nil => rfl
  | cons n rest ih =>
    unfold insertStyleBeforeHeadClose at ih ⊢
    rw [List.flatMap_cons, List.count_append, ih]
    cases n with
    | headClose =>
      have h1 : (HNode.styleBlock f d c == x) = false := by
        rw [beq_eq_false_iff_ne]
        exact fun hc => (hx2 f d c) hc.symm
      have h2 : (HNode.headClose == x) = false := by
        rw [beq_eq_false_iff_ne]
        exact fun hc => hx1 hc.symm
      simp [List.count_cons, h1, h2]
    | configScript e wi => simp [List.count_cons, Nat.add_comm]
    | canvas cc => simp [List.count_cons, Nat.add_comm]
    | svgContainer cc => simp [List.count_cons, Nat.add_comm]
    | styleBlock a b cc => simp [List.count_cons, Nat.add_comm]
    | text s => simp [List.count_cons, Nat.add_comm]

/-- Counting behaviour of the patch step on a well-formed base HTML: the
successful widget's container appears exactly once and its canvas
placeholder disappears. -/
theorem inject_counts (html : List HNode) (m : List (String × String))
    (wid svg cid : String)
    (hmem : (wid, svg) ∈ m) (hnd : (keys m).Nodup)
    (hfind : findConfigScript html wid = some cid)
    (huniq : ∀ w, findConfigScript html w = some cid → w = wid)
    (hcanvas : html.count (HNode.canvas cid) = 1)
    (hnoc : html.count (HNode.svgContainer (stripSvgContent svg)) = 0)
    (hdist : ∀ p ∈ m, p.1 ≠ wid → stripSvgContent p.2 ≠ stripSvgContent svg) :
    (injectSvgIntoHtml html m).count
      (HNode.svgContainer (stripSvgContent svg)) = 1 ∧
    (injectSvgIntoHtml html m).count (HNode.canvas cid) = 0 := by
  have hfp : m.find? (fun p => findConfigScript html p.1 == some cid) =
      some (wid, svg) := by
    refine find?_eq_of_unique_key hmem hnd ?_ ?_
    · intro p _ hpred
      exact huniq p.1 (beq_iff_eq.mp hpred)
    · intro p _ hp1
      rw [hp1, hfind]
      exact beq_self_eq_true _
  have hpc : patchFun html m (HNode.canvas cid) =
      HNode.svgContainer (stripSvgContent svg) := by
    show (match m.find? (fun p => findConfigScript html p.1 == some cid) with
      | some p => HNode.svgContainer (stripSvgContent p.2)
      | none => HNode.canvas cid) = _
    rw [hfp]
  have hnotmem : HNode.svgContainer (stripSvgContent svg) ∉ html :=
    List.count_eq_zero.mp hnoc
  have hother : ∀ c, c ≠ cid →
      patchFun html m (HNode.canvas c) = HNode.canvas c ∨
      (∃ p ∈ m, p.1 ≠ wid ∧
        patchFun html m (HNode.canvas c) =
          HNode.svgContainer (stripSvgContent p.2)) := by
    intro c hc
    show (match m.find? (fun p => findConfigScript html p.1 == some c) with
      | some p => HNode.svgContainer (stripSvgContent p.2)
      | none => HNode.canvas c) = _ ∨ _
    cases hfc : m.find? (fun p => findConfigScript html p.1 == some c) with
    | none => exact Or.inl rfl
    | some p =>
      refine Or.inr ⟨p, List.mem_of_find?_eq_some hfc, ?_, ?_⟩
      · intro hp1
        have hpred : (findConfigScript html p.1 == some c) = true :=
          List.find?_some (p := fun q : String × String =>
            findConfigScript html q.1 == some c) hfc
        have hceq : findConfigScript html p.1 = some c := beq_iff_eq.mp hpred
        rw [hp1, hfind] at hceq
        injection hceq with hcc
        exact hc hcc.symm
      · show (match m.find? (fun p => findConfigScript html p.1 == some c) with
          | some p => HNode.svgContainer (stripSvgContent p.2)
          | none => HNode.canvas c) = _
        rw [hfc]
  rw [injectSvgIntoHtml_eq_map]
  constructor
  · rw [List.count_eq_countP, List.countP_map]
    have heq : List.countP
        ((fun x => x == HNode.svgContainer (stripSvgContent svg)) ∘ patchFun html m)
        html = List.countP (fun x => x == HNode.canvas cid) html := by
      apply List.countP_congr
      intro n hn
      show (patchFun html m n == HNode.svgContainer (stripSvgContent svg)) = true ↔
        (n == HNode.canvas cid) = true
      rw [beq_iff_eq, beq_iff_eq]
      cases n with
      | canvas c =>
        by_cases hc : c = cid
        · subst hc
          rw [hpc]
          simp
        · rcases hother c hc with h | ⟨p, hp, hp1, h⟩
          · rw [h]
            constructor
            · intro hcon
              cases hcon
            · intro hcon
              injection hcon with hcc
              exact absurd hcc hc
          · rw [h]
            constructor
            · intro hcon
              injection hcon with hcc
              exact absurd hcc (hdist p hp hp1)
            · intro hcon
              injection hcon with hcc
              exact absurd hcc hc
      | configScript e wi =>
        rw [patchFun_ne_canvas html m _ (fun c hcon => HNode.noConfusion hcon)]
        constructor
        · intro hcon
          cases hcon
        · intro hcon
          cases hcon
      | svgContainer x =>
        rw [patchFun_ne_canvas html m _ (fun c hcon => HNode.noConfusion hcon)]
        constructor
        · intro hcon
          exact absurd (hcon ▸ hn) hnotmem
        · intro hcon
          cases hcon
      | styleBlock a b cc =>
        rw [patchFun_ne_canvas html m _ (fun c hcon => HNode.noConfusion hcon)]
        constructor
        · intro hcon
          cases hcon
        · intro hcon
          cases hcon
      | headClose =>
        rw [patchFun_ne_canvas html m _ (fun c hcon => HNode.noConfusion hcon)]
        constructor
        · intro hcon
          cases hcon
        · intro hcon
          cases hcon
      | text s =>
        rw [patchFun_ne_canvas html m _ (fun c hcon => HNode.noConfusion hcon)]
        constructor
        · intro hcon
          cases hcon
        · intro hcon
          cases hcon
    rw [heq, ← List.count_eq_countP, hcanvas]
  · rw [List.count_eq_countP, List.countP_map]
    rw [List.countP_eq_zero]
    intro n hn
    rw [Bool.not_eq_true]
    show (patchFun html m n == HNode.canvas cid) = false
    rw [beq_eq_false_iff_ne]
    cases n with
    | canvas c =>
      by_cases hc : c = cid
      · subst hc
        rw [hpc]
        intro hcon
        cases hcon
      · rcases hother c hc with h | ⟨p, hp, hp1, h⟩
        · rw [h]
          intro hcon
          injection hcon with hcc
          exact hc hcc
        · rw [h]
          intro hcon
          cases hcon
    | configScript e wi =>
      rw [patchFun_ne_canvas html m _ (fun c hcon => HNode.noConfusion hcon)]
      intro hcon
      cases hcon
    | svgContainer x =>
      rw [patchFun_ne_canvas html m _ (fun c hcon => HNode.noConfusion hcon)]
      intro hcon
      cases hcon
    | styleBlock a b cc =>
      rw [patchFun_ne_canvas html m _ (fun c hcon => HNode.noConfusion hcon)]
      intro hcon
      cases hcon
    | headClose =>
      rw [patchFun_ne_canvas html m _ (fun c hcon => HNode.noConfusion hcon)]
      intro hcon
      cases hcon
    | text s =>
      rw [patchFun_ne_canvas html m _ (fun c hcon => HNode.noConfusion hcon)]
      intro hcon
      cases hcon

/-- C5: for a chart widget whose vectorization succeeds, the final HTML
contains exactly one injected vector container (carrying the SVG with XML
declaration and DOCTYPE preamble stripped) for that widget id, and its
original canvas placeholder is gone.  The base HTML is assumed well
formed: one config script resolving the widget id to its config element
id, one canvas placeholder for it, distinct rendered charts. -/
theorem successful_widget_injected_once
    (env : RenderEnv) (conv : Block → Option String) (doc : Document)
    (wid svg cid : String) (html : List HNode) (b : Block) (flag : Bool)
    (hconv : env.converter = some conv)
    (hhtml : env.renderHtml doc = html)
    (hfont : env.fonts.fullOtf = true)
    (hb : OccursInDoc b doc) (hbcw : isChartWidgetB b = true)
    (hbid : b.widgetId = some wid) (hbsvg : convResult conv b = some svg)
    (hkeyuniq : ∀ b', OccursInDoc b' doc → b'.widgetId = some wid →
      convResult conv b' = some svg)
    (hfind : findConfigScript html wid = some cid)
    (huniq : ∀ w, findConfigScript html w = some cid → w = wid)
    (hcanvas : html.count (HNode.canvas cid) = 1)
    (hnoc : html.count (HNode.svgContainer (stripSvgContent svg)) = 0)
    (hdistinct : ∀ b' w' s', OccursInDoc b' doc → b'.widgetId = some w' →
      w' ≠ wid → convResult conv b' = some s' →
      stripSvgContent s' ≠ stripSvgContent svg) :
    ∃ htmlF, (getPdfHtml env doc flag).result = Except.ok htmlF ∧
      htmlF.count (HNode.svgContainer (stripSvgContent svg)) = 1 ∧
      htmlF.count (HNode.canvas cid) = 0 := by
  have hmC : (convertChartsToSvg (some conv) doc).svgMap =
      foldIns [] (successes conv (cwDocL doc)) := by
    rw [convertChartsToSvg_eq]
  have hbmem : (wid, svg) ∈ successes conv (cwDocL doc) := by
    refine List.mem_filterMap.mpr ⟨b, cwDocL_complete hb hbcw, ?_⟩
    unfold widgetEntry
    rw [hbid, hbsvg]
  have hlk : lookupD (foldIns [] (successes conv (cwDocL doc))) wid = some svg := by
    rw [lookupD_foldIns]
    have hsome : ((successes conv (cwDocL doc)).reverse.find?
        (fun p => p.1 == wid)).isSome = true :=
      List.find?_isSome.mpr
        ⟨(wid, svg), List.mem_reverse.mpr hbmem, beq_self_eq_true wid⟩
    obtain ⟨q, hq⟩ := Option.isSome_iff_exists.mp hsome
    have hq1 : q.1 = wid :=
      beq_iff_eq.mp (List.find?_some (p := fun r : String × String => r.1 == wid) hq)
    have hqm : q ∈ successes conv (cwDocL doc) :=
      List.mem_reverse.mp (List.mem_of_find?_eq_some hq)
    obtain ⟨b', hb', hbe'⟩ := List.mem_filterMap.mp hqm
    obtain ⟨hbid', hbc'⟩ := widgetEntry_eq_some hbe'
    rw [hq1] at hbid'
    obtain ⟨hocc', _⟩ := cwDocL_sound hb'
    have hval := hkeyuniq b' hocc' hbid'
    rw [hval] at hbc'
    have hq2 : q.2 = svg := by
      injection hbc' with h
      exact h.symm
    rw [hq]
    dsimp only
    rw [hq2]
  have hmem : (wid, svg) ∈ foldIns [] (successes conv (cwDocL doc)) :=
    mem_of_lookupD hlk
  have hnd : (keys (foldIns [] (successes conv (cwDocL doc)))).Nodup :=
    keys_foldIns_nodup _ List.nodup_nil
  have hdist' : ∀ p ∈ foldIns [] (successes conv (cwDocL doc)), p.1 ≠ wid →
      stripSvgContent p.2 ≠ stripSvgContent svg := by
    intro p hp hpne
    have hpS : p ∈ successes conv (cwDocL doc) := by
      rcases mem_foldIns hp with h | h
      · cases h
      · exact h
    obtain ⟨b', hb', hbe'⟩ := List.mem_filterMap.mp hpS
    obtain ⟨hbid', hbc'⟩ := widgetEntry_eq_some hbe'
    obtain ⟨hocc', _⟩ := cwDocL_sound hb'
    exact hdistinct b' p.1 p.2 hocc' hbid' hpne hbc'
  obtain ⟨hcnt1, hcnt0⟩ :=
    inject_counts html (foldIns [] (successes conv (cwDocL doc))) wid svg cid
      hmem hnd hfind huniq hcanvas hnoc hdist'
  have hfp : getFontPath env.fonts = Except.ok FontFile.fullOtf := by
    unfold getFontPath
    rw [if_pos hfont]
  have hne : ((convertChartsToSvg env.converter doc).svgMap).isEmpty = false := by
    rw [hconv, hmC]
    exact List.isEmpty_eq_false.mpr (List.ne_nil_of_mem hmem)
  unfold getPdfHtml
  simp only [hfp, hne, Bool.false_eq_true, if_false]
  refine ⟨_, rfl, ?_, ?_⟩
  · rw [count_insertStyleBeforeHeadClose _ _ _ _ _
      (fun hc => HNode.noConfusion hc) (fun a b' c' hc => HNode.noConfusion hc)]
    rw [hconv, hmC, hhtml]
    exact hcnt1
  · rw [count_insertStyleBeforeHeadClose _ _ _ _ _
      (fun hc => HNode.noConfusion hc) (fun a b' c' hc => HNode.noConfusion hc)]
    rw [hconv, hmC, hhtml]
    exact hcnt0

/-- A converter returning a vector image with an XML preamble. -/
def okConv : Block → Option String :=
  fun _ => some "<?xml version=\"1.0\"?><svg>A</svg>"

/-- A document holding only the chart widget `w1`. -/
def sampleDocC5 : Document := ⟨[⟨[wChart]⟩]⟩

/-- Base HTML for `sampleDocC5`: config script, placeholder, head close. -/
def sampleHtmlC5 : List HNode :=
  [HNode.configScript "cfg1" "w1", HNode.canvas "cfg1", HNode.headClose]

/-- The sample environment rendering `sampleDocC5` with `okConv`. -/
def sampleEnvC5 : RenderEnv :=
  ⟨sampleOptimizer, some okConv, fun _ => sampleHtmlC5,
    ⟨true, false, false⟩, fun _ => "FONTDATA", fun _ => Except.ok [37, 80, 68, 70]⟩

theorem occursIn_wChart_singleton : ∀ b', OccursIn b' [wChart] → b' = wChart := by
  intro b' h
  cases h with
  | direct h => exact List.mem_singleton.mp h
  | inSub hb hs _ =>
    rw [List.mem_singleton] at hb
    subst hb
    exact Option.noConfusion hs
  | inItem hb ht _ _ =>
    rw [List.mem_singleton] at hb
    subst hb
    exact absurd ht (by decide)
  | inCell hb ht _ _ _ =>
    rw [List.mem_singleton] at hb
    subst hb
    exact absurd ht (by decide)

theorem occursInDoc_sampleDocC5 : ∀ b', OccursInDoc b' sampleDocC5 → b' = wChart := by
  intro b' hocc
  obtain ⟨ch, hch, hin⟩ := hocc
  rw [show sampleDocC5.chapters = [⟨[wChart]⟩] from rfl, List.mem_singleton] at hch
  subst hch
  exact occursIn_wChart_singleton b' hin

theorem sampleHtmlC5_uniq :
    ∀ w, findConfigScript sampleHtmlC5 w = some "cfg1" → w = "w1" := by
  intro w hw
  by_cases h : "w1" = w
  · exact h.symm
  · exfalso
    unfold sampleHtmlC5 at hw
    rw [findConfigScript, if_neg h, findConfigScript, findConfigScript,
      findConfigScript] at hw
    cases hw

/-- Witness for C5: the successful chart `w1` of the concrete document
yields exactly one injected container and removes its placeholder. -/
theorem successful_widget_injected_once_witness :
    ∃ htmlF, (getPdfHtml sampleEnvC5 sampleDocC5 false).result = Except.ok htmlF ∧
      htmlF.count (HNode.svgContainer
        (stripSvgContent "<?xml version=\"1.0\"?><svg>A</svg>")) = 1 ∧
      htmlF.count (HNode.canvas "cfg1") = 0 := by
  refine successful_widget_injected_once sampleEnvC5 okConv sampleDocC5
    "w1" "<?xml version=\"1.0\"?><svg>A</svg>" "cfg1" sampleHtmlC5 wChart false
    rfl rfl rfl
    ⟨⟨[wChart]⟩, List.mem_singleton_self _, OccursIn.direct (List.mem_singleton_self _)⟩
    (by decide) rfl (by decide)
    (fun b' _ _ => rfl)
    (by decide) sampleHtmlC5_uniq (by decide) ?_ ?_
  · apply List.count_eq_zero.mpr
    intro hc
    unfold sampleHtmlC5 at hc
    rcases List.mem_cons.mp hc with h | h
    · cases h
    · rcases List.mem_cons.mp h with h2 | h2
      · cases h2
      · rcases List.mem_cons.mp h2 with h3 | h3
        · cases h3
        · cases h3
  · intro b' w' s' hocc hwid hne hcr
    exfalso
    have hbe := occursInDoc_sampleDocC5 b' hocc
    subst hbe
    rw [show wChart.widgetId = some "w1" from rfl] at hwid
    injection hwid with hw
    exact hne hw.symm

/-- C10: the extraction never mutates the Document IR: the state-passing
embedding of the traversal hands back a document structurally equal to its
input while computing exactly the svg map of the plain traversal; the
render entry points pass the document only to this traversal and to the
collaborators, which are modelled as read-only per their spec
signatures. -/
theorem extraction_does_not_mutate_document
    (conv : Block → Option String) (doc : Document) :
    (convertChartsToSvgT conv doc).1 = doc ∧
    (convertChartsToSvgT conv doc).2 = convertChartsToSvg (some conv) doc := by
  unfold convertChartsToSvgT convertChartsToSvg
  rw [convertChartsLoopT_eq conv doc.chapters [] ⟨[], []⟩]
  exact ⟨rfl, rfl⟩

end BettaFish
